import Mathlib

/-!
Verification development for the GraphMaker annotation pipeline
(build/scripts/GraphMaker.py): the per-line comment scanner `process_line`,
the quote normalizer and payload decoder `process_json`, the graph data
model (`Node`, `Edge`, `Graph`), the edge resolver and the GraphViz
renderer.

Python strings are modelled as lists of characters (`Str`), and the
process-wide mutable globals as an explicit state record (`PState`)
threaded through the processing functions.
-/

namespace GraphMaker

/-- Python strings are modelled as lists of characters. -/
abbrev Str := List Char

/-- Convert a Lean string literal into the character-list model. -/
def S (s : String) : Str := s.data

/-- Python `str.strip()` whitespace characters (ASCII range). -/
def pyIsSpace (c : Char) : Bool :=
  c = ' ' || c = '\t' || c = '\n' || c = '\r' || c = '\x0b' || c = '\x0c'

/-- Remove trailing whitespace (the tail half of Python `str.strip()`). -/
def dropTrailing (l : Str) : Str := (l.reverse.dropWhile pyIsSpace).reverse

/-- Python `str.strip()`: remove leading and trailing whitespace. -/
def pyStrip (l : Str) : Str := dropTrailing (l.dropWhile pyIsSpace)

/-- Python `str.find(needle)`: index of the leftmost occurrence, `none` for -1.
An empty needle is found at index 0, as in Python. -/
def pyFind (needle : Str) : Str → Option Nat
  | [] => if needle.isPrefixOf ([] : Str) then some 0 else none
  | c :: t =>
    if needle.isPrefixOf (c :: t) then some 0
    else (pyFind needle t).map (· + 1)

/-- Python `str.replace(needle, repl, 1)`: replace the leftmost occurrence. -/
def pyReplaceFirst (needle repl : Str) : Str → Str
  | [] => if needle = [] then repl else []
  | c :: t =>
    if needle = [] then repl ++ c :: t
    else if needle.isPrefixOf (c :: t) then repl ++ (c :: t).drop needle.length
    else c :: pyReplaceFirst needle repl t

/-- Python `str.replace(needle, repl)`: replace every non-overlapping
occurrence, scanning left to right.  The fuel argument (at least the
length of the string) makes the recursion structural: every step consumes
at least one character. -/
def pyReplaceAllAux (needle repl : Str) : Nat → Str → Str
  | 0, s => s
  | _ + 1, [] => if needle = [] then repl else []
  | fuel + 1, c :: t =>
    if needle = [] then repl ++ c :: pyReplaceAllAux needle repl fuel t
    else if needle.isPrefixOf (c :: t) then
      repl ++ pyReplaceAllAux needle repl fuel (t.drop (needle.length - 1))
    else c :: pyReplaceAllAux needle repl fuel t

/-- Python `str.replace(needle, repl)` on a whole string. -/
def pyReplaceAll (needle repl s : Str) : Str :=
  pyReplaceAllAux needle repl s.length s

/-- The `@@graph` marker (constant GRAPHTAG in the source). -/
def GRAPHTAG : Str := S "@@graph"

/-- The ordered comment-delimiter table (constant COMMENT_DELIMITERS). -/
def COMMENT_DELIMITERS : List (Str × Str) :=
  [(S "/*", S "*/"), (S "//", S ""), (S "#", S "")]

/-- The delimiter-table scan of `process_line`: the first pair whose start
delimiter is found at position 0 of the trimmed line. -/
def findDelimPair (bare : Str) : Option (Str × Str) :=
  COMMENT_DELIMITERS.find? (fun p => pyFind p.1 bare == some 0)

/-- The regex search and substitution of the closing-brace pattern of
`process_line` (a close brace, then zero or more non-double-quote
characters, then the end-of-string anchor).  The pattern matches at the
leftmost position holding a close brace whose entire remaining suffix is
free of double quotes; the substitution replaces that whole match by a
single close brace.  Returns `none` when the search fails. -/
def braceSub : Str → Option Str
  | [] => none
  | c :: t =>
    if c = '}' && t.all (fun d => d != '"') then some ['}']
    else (braceSub t).map (c :: ·)

/-- The regex search and substitution for the continuation-line marker pattern
(optional whitespace, an optional single star glyph, optional whitespace,
then the `@@graph` marker, anchored at the start of the line): returns the
text after the stripped match, or `none` when the pattern does not occur. -/
def reTagMatch (s : Str) : Option Str :=
  let t := s.dropWhile pyIsSpace
  if GRAPHTAG.isPrefixOf t then some (t.drop GRAPHTAG.length)
  else
    match t with
    | '*' :: u =>
      let v := u.dropWhile pyIsSpace
      if GRAPHTAG.isPrefixOf v then some (v.drop GRAPHTAG.length) else none
    | _ => none

/-- The single-quote character (codepoint 39). -/
def singleQuote : Char := Char.ofNat 39

/-- The single-quote-to-double-quote sanitizing loop at the top of
`process_json`: scan character by character; each literal double quote
toggles the `double_quotes_active` flag and is kept; a single quote seen
while the flag is off is rewritten to a double quote; every other
character (including single quotes seen while the flag is on) is kept. -/
def normalizeQuotesAux (dq : Bool) : Str → Str
  | [] => []
  | c :: t =>
    if c = '"' then c :: normalizeQuotesAux (!dq) t
    else if c = singleQuote && !dq then '"' :: normalizeQuotesAux dq t
    else c :: normalizeQuotesAux dq t

/-- The full sanitizing pass (flag starts off). -/
def normalizeQuotes (s : Str) : Str := normalizeQuotesAux false s

/-! JSON decoding.  The source calls the Python standard library
(`json.JSONDecoder().decode`); the pipeline only ever consumes flat
objects whose keys and values are strings, so the decoder is modelled for
exactly that shape: anything else (arrays, numbers, nested objects,
unicode escapes) is a decode failure, which the caller turns into one
counted error. -/

/-- JSON insignificant whitespace (as accepted by the Python decoder). -/
def jsonWs (c : Char) : Bool :=
  c = ' ' || c = '\t' || c = '\n' || c = '\r'

/-- Skip insignificant JSON whitespace. -/
def jskip (s : Str) : Str := s.dropWhile jsonWs

/-- Single-character JSON escape codes. -/
def unescapeChar : Char → Option Char
  | '"' => some '"'
  | '\\' => some '\\'
  | '/' => some '/'
  | 'b' => some '\x08'
  | 'f' => some '\x0c'
  | 'n' => some '\n'
  | 'r' => some '\r'
  | 't' => some '\t'
  | _ => none

/-- Parse the body of a JSON string after its opening quote; returns the
decoded content and the remainder after the closing quote.  Unescaped
control characters are rejected, as in the strict Python decoder. -/
def parseJsonStringBody : Str → Option (Str × Str)
  | [] => none
  | c :: t =>
    if c = '"' then some ([], t)
    else if c = '\\' then
      match t with
      | [] => none
      | e :: t2 =>
        match unescapeChar e with
        | none => none
        | some d =>
          match parseJsonStringBody t2 with
          | none => none
          | some (v, r) => some (d :: v, r)
    else if c.toNat < 32 then none
    else
      match parseJsonStringBody t with
      | none => none
      | some (v, r) => some (c :: v, r)

/-- Store a key/value pair into the decoded record, Python-dict style:
an existing key keeps its position and gets the new value (later duplicate
wins), a new key is appended. -/
def dictSet {α : Type} (l : List (Str × α)) (k : Str) (v : α) : List (Str × α) :=
  if l.any (fun p => p.1 == k) then
    l.map (fun p => if p.1 = k then (p.1, v) else p)
  else l ++ [(k, v)]

/-- Assoc-list lookup (Python `d[k]` / `k in d`). -/
def lookupAssoc {α : Type} (l : List (Str × α)) (k : Str) : Option α :=
  match l.find? (fun p => p.1 == k) with
  | some p => some p.2
  | none => none

/-- Parse the members of a flat string-valued JSON object, after the
opening brace.  The fuel argument bounds the recursion. -/
def parseMembers : Nat → Str → List (Str × Str) → Option (List (Str × Str) × Str)
  | 0, _, _ => none
  | fuel + 1, s, acc =>
    match jskip s with
    | [] => none
    | c :: r0 =>
      if c = '"' then
        match parseJsonStringBody r0 with
        | none => none
        | some (k, r1) =>
          match jskip r1 with
          | ':' :: r3 =>
            match jskip r3 with
            | '"' :: r4 =>
              match parseJsonStringBody r4 with
              | none => none
              | some (v, r5) =>
                let acc2 := dictSet acc k v
                match jskip r5 with
                | ',' :: r6 => parseMembers fuel r6 acc2
                | '}' :: r7 => some (acc2, r7)
                | _ => none
            | _ => none
          | _ => none
      else none

/-- Decode a flat string-valued JSON object (`json.JSONDecoder().decode`
restricted to the record shape the pipeline consumes).  Trailing data
after the object is a failure, as in `decode`. -/
def jsonDecodeFlat (s : Str) : Option (List (Str × Str)) :=
  match jskip s with
  | '{' :: rest =>
    match jskip rest with
    | '}' :: r2 => if jskip r2 = [] then some [] else none
    | _ =>
      match parseMembers (s.length + 1) rest [] with
      | none => none
      | some (m, r) => if jskip r = [] then some m else none
  | _ => none

/-- Source function `get_json_value`: retrieve a key from the decoded record, defaulting
when the key is empty or absent. -/
def get_json_value (rec : List (Str × Str)) (keyvalue : Str) (defvalue : Str := []) : Str :=
  if keyvalue = [] then defvalue
  else
    match lookupAssoc rec keyvalue with
    | some v => v
    | none => defvalue

/-! The graph data model. -/

/-- The `Node` class. -/
structure Node where
  node_id : Str
  node_name : Str
  node_type : Str
  group : Str
deriving DecidableEq, Repr

/-- The `Edge` class; the resolved id fields start empty in `__init__`. -/
structure Edge where
  from_node_name : Str
  to_node_name : Str
  label : Str
  edge_type : Str
  from_node_id : Str
  to_node_id : Str
deriving DecidableEq, Repr

/-- The `Graph` class. -/
structure Graph where
  graph_type : Str
  graph_id : Str
  title : Str
  description : Str
  filename_suffix : Str
  groups : List Str
  group_nodes : List (Str × List Nat)
  nodes : List Node
  edges : List Edge
  node_name_to_id_map : List (Str × Str)
deriving DecidableEq, Repr

/-- Constructor `Graph.__init__`: the collections start empty. -/
def Graph.init (graphtype graphid title description filenamesuffix : Str) : Graph :=
  ⟨graphtype, graphid, title, description, filenamesuffix, [], [], [], [], []⟩

/-- Constructor `Edge.__init__`: resolved ids start empty. -/
def Edge.init (fromnodename tonodename label edgetype : Str) : Edge :=
  ⟨fromnodename, tonodename, label, edgetype, [], []⟩

/-- Method `Graph.add_node`: append the node, update the name-to-id map when the
id is non-empty, and lazily create/extend the node's group. -/
def Graph.add_node (g : Graph) (nodeid nodename nodetype group : Str) : Graph :=
  let new_node : Node := ⟨nodeid, nodename, nodetype, group⟩
  let node_index : Nat := g.nodes.length
  let g1 : Graph := { g with nodes := g.nodes ++ [new_node] }
  let g2 : Graph :=
    if nodeid ≠ [] then
      { g1 with node_name_to_id_map := dictSet g1.node_name_to_id_map nodename nodeid }
    else g1
  if group ≠ [] then
    let g3 : Graph :=
      if group ∈ g2.groups then g2 else { g2 with groups := g2.groups ++ [group] }
    match lookupAssoc g3.group_nodes group with
    | some lst => { g3 with group_nodes := dictSet g3.group_nodes group (lst ++ [node_index]) }
    | none => { g3 with group_nodes := g3.group_nodes ++ [(group, [node_index])] }
  else g2

/-- Method `Graph.add_edge`: append an edge with unresolved endpoint ids. -/
def Graph.add_edge (g : Graph) (fromnodename tonodename label edgetype : Str) : Graph :=
  { g with edges := g.edges ++ [Edge.init fromnodename tonodename label edgetype] }

/-- One edge of `Graph.resolve_edge_node_ids`: fill each still-empty
endpoint id from the name-to-id map; a name absent from the map is a
counted error and leaves the id empty.  Returns the updated edge and the
number of errors written. -/
def resolveEdge (m : List (Str × Str)) (e : Edge) : Edge × Nat :=
  let p1 : Edge × Nat :=
    if e.from_node_id = [] then
      match lookupAssoc m e.from_node_name with
      | some v => ({ e with from_node_id := v }, 0)
      | none => (e, 1)
    else (e, 0)
  let p2 : Edge × Nat :=
    if p1.1.to_node_id = [] then
      match lookupAssoc m p1.1.to_node_name with
      | some v => ({ p1.1 with to_node_id := v }, 0)
      | none => (p1.1, 1)
    else (p1.1, 0)
  (p2.1, p1.2 + p2.2)

/-- Method `Graph.resolve_edge_node_ids`: resolve every edge in insertion order;
returns the updated graph and the number of errors written. -/
def Graph.resolve_edge_node_ids (g : Graph) : Graph × Nat :=
  let rs := g.edges.map (resolveEdge g.node_name_to_id_map)
  ({ g with edges := rs.map Prod.fst }, (rs.map Prod.snd).sum)

/-! Process-wide mutable state: the scanner globals, the counters and the
graph registry (a Python dict in insertion order). -/

/-- The module-level mutable globals of GraphMaker. -/
structure PState where
  multiline_comment_active : Bool
  multiline_comment_terminator : Str
  graphtag_object_json : Str
  still_reading_graphtag_object : Bool
  num_errors : Nat
  num_warnings : Nat
  num_graphtags : Nat
  graphs : List (Str × Graph)
deriving DecidableEq, Repr

/-- The initial global state of a run. -/
def initState : PState := ⟨false, [], [], false, 0, 0, 0, []⟩

/-- Source function `write_error_msg`: print and count one error. -/
def write_error_msg (st : PState) : PState :=
  { st with num_errors := st.num_errors + 1 }

/-- String-valued attribute constants from the source. -/
def COMMAND_DATA : Str := S "data"
def COMMAND_DEFINITION : Str := S "definition"
def GRAPHTYPE_CODE : Str := S "code"
def GRAPHTYPE_WORKFLOW : Str := S "workflow"
def DATATYPE_NODE : Str := S "node"
def DATATYPE_EDGE : Str := S "edge"
def EDGETYPE_DEFAULT : Str := S "normal"

/-- The common GraphViz node decoration string (every node type maps to
this same attribute string in the source dictionary). -/
def NODE_BOX_SETTINGS : Str :=
  S "shape=box,pencolor=blue,fillcolor=white,color=blue,fontsize=12,fontcolor=black,style=solid,newrank=false,rankdir=\"TB\""

def DEFAULT_NODE_SETTINGS : Str := NODE_BOX_SETTINGS
def DEFAULT_EDGE_SETTINGS : Str := S "color=black,pencolor=black"

/-- The `GraphVizNodeTypes` dictionary (the closed node-type enumeration). -/
def GraphVizNodeTypes : List (Str × Str) :=
  [(S "class", NODE_BOX_SETTINGS), (S "function", NODE_BOX_SETTINGS),
   (S "member", NODE_BOX_SETTINGS), (S "property", NODE_BOX_SETTINGS),
   (S "variable", NODE_BOX_SETTINGS), (S "constant", NODE_BOX_SETTINGS),
   (S "event", NODE_BOX_SETTINGS), (S "eventhandler", NODE_BOX_SETTINGS),
   (S "state", NODE_BOX_SETTINGS)]

/-- The `GraphVizEdgeTypes` dictionary (the closed edge-type enumeration). -/
def GraphVizEdgeTypes : List (Str × Str) := [(S "normal", []), (S "transition", [])]

/-- Decimal digits of a natural number. -/
def natToDecAux : Nat → Nat → Str
  | 0, _ => []
  | fuel + 1, n =>
    if n < 10 then [Char.ofNat (48 + n)]
    else natToDecAux fuel (n / 10) ++ [Char.ofNat (48 + n % 10)]

/-- Decimal representation of a natural number. -/
def natToDec (n : Nat) : Str := natToDecAux (n + 1) n

/-- The Python format specifier `{num:02}`: decimal, zero-padded to at
least two digits. -/
def pad2 (n : Nat) : Str := if n < 10 then '0' :: natToDec n else natToDec n

/-- The node id assigned to the `num`-th node of a graph (the f-string
`n{num:02}` in `process_json`). -/
def nodeIdStr (num : Nat) : Str := 'n' :: pad2 num

/-- The `definition` command branch of `process_json`: validate the five
required attributes and register the new graph, overwriting any previous
graph with the same id; each `raise` is one counted error. -/
def processDefinition (rec0 : List (Str × Str)) (st : PState) : PState :=
  let graphtype := get_json_value rec0 (S "graphtype")
  if graphtype = [] then write_error_msg st
  else if graphtype ≠ GRAPHTYPE_CODE ∧ graphtype ≠ GRAPHTYPE_WORKFLOW then write_error_msg st
  else
    let graphid := get_json_value rec0 (S "graphid")
    if graphid = [] then write_error_msg st
    else
      let title := get_json_value rec0 (S "title")
      if title = [] then write_error_msg st
      else
        let description := get_json_value rec0 (S "description")
        if description = [] then write_error_msg st
        else
          let filenamesuffix := get_json_value rec0 (S "filenamesuffix")
          if filenamesuffix = [] then write_error_msg st
          else
            let new_graph := Graph.init graphtype graphid title description filenamesuffix
            { st with graphs := dictSet st.graphs graphid new_graph }

/-- The node part of the `data` command branch of `process_json`. -/
def processNodeData (rec0 : List (Str × Str)) (graphid : Str) (g : Graph) (st : PState) : PState :=
  let nodename := get_json_value rec0 (S "nodename")
  if nodename = [] then write_error_msg st
  else
    let nodetype := get_json_value rec0 (S "nodetype")
    if nodetype = [] then write_error_msg st
    else if (lookupAssoc GraphVizNodeTypes nodetype).isNone then write_error_msg st
    else
      let group := get_json_value rec0 (S "group")
      let num := g.nodes.length + 1
      let nodeid := nodeIdStr num
      { st with graphs := dictSet st.graphs graphid (g.add_node nodeid nodename nodetype group) }

/-- The edge part of the `data` command branch of `process_json`. -/
def processEdgeData (rec0 : List (Str × Str)) (graphid : Str) (g : Graph) (st : PState) : PState :=
  let fromnodename := get_json_value rec0 (S "fromnodename")
  if fromnodename = [] then write_error_msg st
  else
    let tonodename := get_json_value rec0 (S "tonodename")
    if tonodename = [] then write_error_msg st
    else
      let edgetype0 := get_json_value rec0 (S "edgetype")
      if edgetype0 ≠ [] ∧ (lookupAssoc GraphVizEdgeTypes edgetype0).isNone then write_error_msg st
      else
        let edgetype := if edgetype0 = [] then EDGETYPE_DEFAULT else edgetype0
        let label := get_json_value rec0 (S "label")
        { st with graphs := dictSet st.graphs graphid (g.add_edge fromnodename tonodename label edgetype) }

/-- The `data` command branch of `process_json`: require a registered
`graphid` and a valid `datatype`, then dispatch to the node or edge
handler. -/
def processData (rec0 : List (Str × Str)) (st : PState) : PState :=
  let graphid := get_json_value rec0 (S "graphid")
  if graphid = [] then write_error_msg st
  else
    match lookupAssoc st.graphs graphid with
    | none => write_error_msg st
    | some g =>
      let datatype := get_json_value rec0 (S "datatype")
      if datatype = [] then write_error_msg st
      else if datatype ≠ DATATYPE_NODE ∧ datatype ≠ DATATYPE_EDGE then write_error_msg st
      else if datatype = DATATYPE_NODE then processNodeData rec0 graphid g st
      else processEdgeData rec0 graphid g st

/-- Source function `process_json`: count the tag, sanitize the quoting, decode the JSON
record and dispatch on the `command`; every `raise` in the source is an
exception caught by the handler, which writes one error.  All validation
happens before any registry mutation. -/
def process_json (inputjson : Str) (st0 : PState) : PState :=
  let st := { st0 with num_graphtags := st0.num_graphtags + 1 }
  let inputjson2 := normalizeQuotes inputjson
  match jsonDecodeFlat inputjson2 with
  | none => write_error_msg st
  | some rec0 =>
    let command0 := get_json_value rec0 (S "command")
    let command := if command0 = [] then COMMAND_DATA else command0
    if command ≠ COMMAND_DATA ∧ command ≠ COMMAND_DEFINITION then write_error_msg st
    else if command = COMMAND_DEFINITION then processDefinition rec0 st
    else processData rec0 st

/-! The per-line scanner `process_line`, split into the pieces of its
control flow: the common tail (lines 1044-1062 of the source), the branch
for lines that start with a comment delimiter (lines 960-1001) and the
branch for lines that do not (lines 1002-1042). -/

/-- The common tail of `process_line`: when the accumulator is empty, an
annotation-marker-only line switches on the still-reading flag; otherwise
test the accumulator for a structurally-plausible closing brace, and
either keep reading or normalize-decode-dispatch the payload and clear
the accumulator. -/
def finishTail (st : PState) (is_graphtag_line : Bool) : PState :=
  if st.graphtag_object_json = [] then
    if is_graphtag_line then { st with still_reading_graphtag_object := true } else st
  else
    match braceSub st.graphtag_object_json with
    | none => { st with still_reading_graphtag_object := true }
    | some res =>
      let payload := pyStrip res
      let st1 := { st with graphtag_object_json := payload, still_reading_graphtag_object := false }
      let st2 := process_json payload st1
      { st2 with graphtag_object_json := [] }

/-- The comment-line branch of `process_line`: the matched pair's end
delimiter is recorded as the terminator, the annotation marker is
stripped when it sits at position 0, and the line is dispatched on
whether the matched pair is single-line or multi-line. -/
def commentBranch (bare0 : Str) (ed : Str) (st0 : PState) : PState :=
  let st := { st0 with multiline_comment_terminator := ed }
  let is_graphtag_line : Bool := GRAPHTAG.isPrefixOf bare0
  let bare1 := if is_graphtag_line then pyStrip (pyReplaceFirst GRAPHTAG [] bare0) else bare0
  if ed = [] then
    if is_graphtag_line then finishTail { st with graphtag_object_json := bare1 } true
    else if st.still_reading_graphtag_object then
      finishTail { st with graphtag_object_json := st.graphtag_object_json ++ bare1 } false
    else st
  else
    match pyFind ed bare1 with
    | some _ =>
      let bare2 := pyStrip (pyReplaceAll ed [] bare1)
      if is_graphtag_line then finishTail { st with graphtag_object_json := bare2 } true
      else if st.still_reading_graphtag_object then
        finishTail { st with graphtag_object_json := st.graphtag_object_json ++ bare2 } false
      else finishTail st false
    | none =>
      let st1 := { st with multiline_comment_active := true }
      if st1.still_reading_graphtag_object then
        finishTail { st1 with graphtag_object_json := st1.graphtag_object_json ++ bare1 } is_graphtag_line
      else if is_graphtag_line then
        finishTail { st1 with graphtag_object_json := bare1 } is_graphtag_line
      else st1

/-- The branch of `process_line` for lines that do not start with a
comment delimiter: only relevant while a multi-line comment is open, in
which case the line either terminates the comment, continues an active
annotation, or starts one behind an optional star continuation glyph. -/
def nonCommentBranch (bare : Str) (st : PState) : PState :=
  if st.multiline_comment_active then
    match pyFind st.multiline_comment_terminator bare with
    | some _ =>
      let st1 := { st with multiline_comment_active := false }
      let bare2 := pyStrip (pyReplaceAll st.multiline_comment_terminator [] bare)
      if st1.still_reading_graphtag_object then
        finishTail { st1 with graphtag_object_json := st1.graphtag_object_json ++ bare2 } false
      else st1
    | none =>
      if st.still_reading_graphtag_object then
        finishTail { st with graphtag_object_json := st.graphtag_object_json ++ bare } false
      else
        match reTagMatch bare with
        | some rest => finishTail { st with graphtag_object_json := pyStrip rest } true
        | none => st
  else st

/-- Source function `process_line`: trim the line, ignore it when empty, and dispatch on
whether a comment delimiter occurs at position 0 of the trimmed line. -/
def process_line (inputline : Str) (st : PState) : PState :=
  let bare := pyStrip inputline
  if bare = [] then st
  else
    match findDelimPair bare with
    | some (sd, ed) => commentBranch (pyStrip (pyReplaceFirst sd [] bare)) ed st
    | none => nonCommentBranch bare st

/-- Feed a list of input lines through the scanner. -/
def runLines (st : PState) (lines : List Str) : PState :=
  lines.foldl (fun s l => process_line l s) st

/-! The GraphViz renderer `Graph.generate_graph_output_graphviz`.  Each
`outfile.write` of the source is modelled as one emitted string, so the
produced artifact is the concatenation of the returned list. -/

def indent : Str := S "    "
def indent2 : Str := indent ++ indent
def OUTPUT_FILE_SUFFIX_GRAPHVIZ : Str := S "_graphviz.txt"

/-- A `Node` used for out-of-range list access (the data-model invariant
proved below shows the renderer never reaches it). -/
def defaultNode : Node := ⟨[], [], [], []⟩

/-- The node attribute decoration: the type's entry of `GraphVizNodeTypes`
with a trailing comma when non-empty, empty for an unknown type. -/
def nodeAttributes (node_type : Str) : Str :=
  match lookupAssoc GraphVizNodeTypes node_type with
  | some a => if a ≠ [] then a ++ [','] else a
  | none => []

/-- One node statement line (shared between the cluster and flat paths). -/
def nodeStmtLine (ind : Str) (node : Node) : Str :=
  ind ++ node.node_id ++ S " [" ++ nodeAttributes node.node_type ++
    S "label=\"" ++ node.node_type ++ S ":\\n" ++ node.node_name ++ S "\"];\n"

/-- The invisible chaining edge between two in-cluster node ids. -/
def chainEdgeLine (last_node_id node_id : Str) : Str :=
  indent2 ++ last_node_id ++ S " -> " ++ node_id ++ S ";\n"

/-- One step of the cluster's invisible-edge loop, carrying the last seen
node id, the counter and the emitted lines. -/
def chainStep (g : Graph) (acc : Str × Nat × List Str) (node_index : Nat) :
    Str × Nat × List Str :=
  let node := g.nodes.getD node_index defaultNode
  let node_id := node.node_id
  if node_id ≠ [] then
    let last := acc.1
    let counter := acc.2.1 + 1
    if counter = 1 then (node_id, counter, acc.2.2)
    else (node_id, counter, acc.2.2 ++ [chainEdgeLine last node_id])
  else acc

/-- The invisible chaining edges of one cluster. -/
def chainEdges (g : Graph) (positions : List Nat) : List Str :=
  (positions.foldl (chainStep g) ([], 0, [])).2.2

/-- The lines of the cluster emitted for the group at `index` in the
graph's group list: the subgraph header and properties, the group's node
statements in stored-position order (skipping empty ids), then the
invisible chaining edges. -/
def clusterLines (g : Graph) (index : Nat) : List Str :=
  let group_name := g.groups.getD index []
  let positions := (lookupAssoc g.group_nodes group_name).getD []
  [S "\n",
   indent ++ S "subgraph cluster_" ++ pad2 (index + 1) ++ S " \x7b\n",
   indent2 ++ S "// This is group \"" ++ group_name ++ S "\"\n",
   indent2 ++ S "color = lightgrey;\n",
   indent2 ++ S "label = \"" ++ group_name ++ S "\";\n",
   indent2 ++ S "color = black;\n",
   indent2 ++ S "fontcolor = black;\n",
   indent2 ++ S "node [" ++ DEFAULT_NODE_SETTINGS ++ S "];\n"] ++
  positions.filterMap (fun node_index =>
    let node := g.nodes.getD node_index defaultNode
    if node.node_id ≠ [] then some (nodeStmtLine indent2 node) else none) ++
  [indent2 ++ S "edge [style=\"invis\"];\n"] ++
  chainEdges g positions ++
  [indent ++ S "\x7d\n"]

/-- One rendered edge statement. -/
def edgeStmtLine (e : Edge) : Str :=
  let edge_attributes : Str :=
    match lookupAssoc GraphVizEdgeTypes e.edge_type with
    | some a => if a ≠ [] then a ++ [','] else a
    | none => []
  indent ++ e.from_node_id ++ S " -> " ++ e.to_node_id ++ S " [" ++
    edge_attributes ++ S "label=\"" ++ e.label ++ S "\"];\n"

/-- Method `Graph.generate_graph_output_graphviz`: the emitted lines of the
output artifact (file opening and the surrounding try/except are outside
the model). -/
def Graph.generate_graph_output_graphviz (g : Graph) (output_path : Str) : List Str :=
  let full_output_path := output_path ++ g.filename_suffix ++ OUTPUT_FILE_SUFFIX_GRAPHVIZ
  [S "// Graph file \"" ++ full_output_path ++ S "\"\n",
   S "digraph \x7b\n"] ++
  (if g.groups.length > 0 then
    ((List.range g.groups.length).map (clusterLines g)).flatten
  else
    [indent ++ S "node [" ++ DEFAULT_NODE_SETTINGS ++ S "];\n"] ++
    g.nodes.filterMap (fun node =>
      if node.node_id ≠ [] then some (nodeStmtLine indent node) else none)) ++
  [S "\n", indent ++ S "edge [" ++ DEFAULT_EDGE_SETTINGS ++ S "];\n"] ++
  g.edges.filterMap (fun e =>
    if e.from_node_id ≠ [] ∧ e.to_node_id ≠ [] then some (edgeStmtLine e) else none) ++
  [S "\n", indent ++ S "// Graph title\n",
   indent ++ S "labelloc = \"t\";\n",
   indent ++ S "label = \"" ++ g.title ++ S "\";\n",
   S "\x7d\n"]

/-- The resolver phase of `process_graphs`: resolve every graph's edges,
iterating the registry keys in a given order (the source iterates the
dict's insertion order); each visited key's graph is replaced by its
resolved version in place. -/
def resolveInOrder (order : List Str) (reg : List (Str × Graph)) : List (Str × Graph) :=
  order.foldl
    (fun r gkey => r.map (fun p => if p.1 = gkey then (p.1, (p.2.resolve_edge_node_ids).1) else p))
    reg

/-! Mutation operations reachable on a `Graph` (for the data-model
invariant): the only mutators the processing pipeline invokes are
`add_node` and `add_edge`. -/

/-- A mutation applied to a graph after its definition. -/
inductive GOp where
  | addNode (nodeid nodename nodetype group : Str)
  | addEdge (fromnodename tonodename label edgetype : Str)
deriving DecidableEq, Repr

/-- Apply one mutation. -/
def applyGOp (g : Graph) : GOp → Graph
  | GOp.addNode nodeid nodename nodetype group => g.add_node nodeid nodename nodetype group
  | GOp.addEdge f t l ty => g.add_edge f t l ty

/-- The data-model invariant of claim C10: every stored group name has an
entry in the group-to-positions mapping, every stored position indexes
into the node list, and each position list is strictly increasing. -/
def GraphWF (g : Graph) : Prop :=
  (∀ gname ∈ g.groups, ∃ ps, lookupAssoc g.group_nodes gname = some ps) ∧
  (∀ gname ps, lookupAssoc g.group_nodes gname = some ps →
    (∀ ix ∈ ps, ix < g.nodes.length) ∧ ps.Pairwise (· < ·))

/-! Formalizations of claim sentences that are refuted below.  These
definitions follow the claim's words, not the source. -/

/-- The text strictly before the first occurrence of a needle. -/
def textBeforeFirst (s needle : Str) : Str :=
  match pyFind needle s with
  | some i => s.take i
  | none => s

/-- Claim C5's reading of the scanner, modelled from the claim's words:
the comment-delimiter table is consulted only when no multi-line comment
is currently open; while one is open, every line is handled solely by the
terminator search / continuation logic. -/
def process_line_claimC5 (inputline : Str) (st : PState) : PState :=
  let bare := pyStrip inputline
  if bare = [] then st
  else if st.multiline_comment_active then nonCommentBranch bare st
  else
    match findDelimPair bare with
    | some (sd, ed) => commentBranch (pyStrip (pyReplaceFirst sd [] bare)) ed st
    | none => nonCommentBranch bare st

/-- Feed a list of payload strings directly to the decoder stage. -/
def runJsons (st : PState) (ps : List Str) : PState :=
  ps.foldl (fun s p => process_json p s) st

/-- Sequential node-id property of one graph: the node at position `i`
carries the id assigned for the (i+1)-st node. -/
def NodeSeqIds (g : Graph) : Prop :=
  ∀ i (h : i < g.nodes.length), (g.nodes.get ⟨i, h⟩).node_id = nodeIdStr (i + 1)

/-- Every registered graph has sequential node ids. -/
def RegSeqIds (st : PState) : Prop :=
  ∀ p ∈ st.graphs, NodeSeqIds p.2

/-! Concrete states and payloads used in counterexamples and witnesses. -/

/-- A registered demonstration graph. -/
def demoGraph : Graph := Graph.init (S "code") (S "g") (S "T") (S "D") (S "_s")

/-- A quiescent scanner state whose registry holds the graph `g`. -/
def stWithG : PState := ⟨false, [], [], false, 0, 0, 0, [(S "g", demoGraph)]⟩

/-- A state in the middle of an open multi-line comment with an active
annotation accumulation. -/
def stOpenReading : PState := ⟨true, S "*/", S "x", true, 0, 0, 0, []⟩

/-- A state in the middle of an open multi-line comment, still reading,
with an empty accumulator. -/
def stOpenEmpty : PState := ⟨true, S "*/", [], true, 0, 0, 0, []⟩

/-- A node-data payload whose `nodename` value contains a closing brace. -/
def payloadC1 : Str :=
  S "\x7b\"graphid\":\"g\",\"datatype\":\"node\",\"nodename\":\"x\x7d\",\"nodetype\":\"state\"\x7d"

/-- The first half of `payloadC1`, cut just after the closing brace inside
the quoted `nodename` value. -/
def fragC1a : Str := S "\x7b\"graphid\":\"g\",\"datatype\":\"node\",\"nodename\":\"x\x7d"

/-- The second half of `payloadC1`. -/
def fragC1b : Str := S "\",\"nodetype\":\"state\"\x7d"

/-! # Theorems -/

/-! ## String-model helper lemmas -/

theorem length_dropWhile_le (p : Char → Bool) (l : Str) :
    (l.dropWhile p).length ≤ l.length := by
  induction l with
  | nil => simp [List.dropWhile]
  | cons c t ih =>
    by_cases h : p c
    · simp only [List.dropWhile, h, List.length_cons]
      omega
    · simp [List.dropWhile, h]

theorem length_dropTrailing_le (l : Str) : (dropTrailing l).length ≤ l.length := by
  unfold dropTrailing
  calc (l.reverse.dropWhile pyIsSpace).reverse.length
      = (l.reverse.dropWhile pyIsSpace).length := List.length_reverse _
    _ ≤ l.reverse.length := length_dropWhile_le _ _
    _ = l.length := List.length_reverse _

theorem dropWhile_head_false {p : Char → Bool} {c : Char} {t : Str}
    (h : (c :: t).dropWhile p = c :: t) : p c = false := by
  by_cases hp : p c
  · exfalso
    have h1 : (c :: t).dropWhile p = t.dropWhile p := by simp [List.dropWhile, hp]
    have h2 := length_dropWhile_le p t
    rw [h] at h1
    have := congrArg List.length h1
    simp at this
    omega
  · simpa using hp

theorem stripInv_dropWhile {f : Str} (h : pyStrip f = f) :
    f.dropWhile pyIsSpace = f := by
  cases f with
  | nil => simp [List.dropWhile]
  | cons c t =>
    by_cases hc : pyIsSpace c
    · exfalso
      have h1 : pyStrip (c :: t) = dropTrailing (t.dropWhile pyIsSpace) := by
        simp [pyStrip, List.dropWhile, hc]
      have h2 := length_dropTrailing_le (t.dropWhile pyIsSpace)
      have h3 := length_dropWhile_le pyIsSpace t
      rw [h] at h1
      have := congrArg List.length h1
      simp only [List.length_cons] at this
      omega
    · simp [List.dropWhile, hc]

theorem stripInv_dropTrailing {f : Str} (h : pyStrip f = f) : dropTrailing f = f := by
  have hd := stripInv_dropWhile h
  unfold pyStrip at h
  rwa [hd] at h

theorem pyStrip_of_parts {l : Str} (h1 : l.dropWhile pyIsSpace = l)
    (h2 : dropTrailing l = l) : pyStrip l = l := by
  unfold pyStrip
  rw [h1, h2]

theorem dropTrailing_append {xs f : Str} (hf : dropTrailing f = f) (hne : f ≠ []) :
    dropTrailing (xs ++ f) = xs ++ f := by
  have hfr : f.reverse.dropWhile pyIsSpace = f.reverse := by
    have : (f.reverse.dropWhile pyIsSpace).reverse = f := hf
    calc f.reverse.dropWhile pyIsSpace
        = ((f.reverse.dropWhile pyIsSpace).reverse).reverse := (List.reverse_reverse _).symm
      _ = f.reverse := by rw [this]
  obtain ⟨c, t, hct⟩ : ∃ c t, f.reverse = c :: t := by
    cases hr : f.reverse with
    | nil => exact absurd (by simpa using congrArg List.reverse hr) hne
    | cons c t => exact ⟨c, t, rfl⟩
  have hcf : pyIsSpace c = false := dropWhile_head_false (hct ▸ hfr)
  unfold dropTrailing
  rw [List.reverse_append, hct, List.cons_append]
  rw [show ((c :: (t ++ xs.reverse)).dropWhile pyIsSpace) = c :: (t ++ xs.reverse) by
    simp [List.dropWhile, hcf]]
  rw [← List.cons_append, ← hct, List.reverse_append, List.reverse_reverse, List.reverse_reverse]

theorem stripInv_flatten {l : List Str} (h : ∀ x ∈ l, pyStrip x = x ∧ x ≠ [])
    (hne : l ≠ []) : pyStrip l.flatten = l.flatten ∧ l.flatten ≠ [] := by
  induction l with
  | nil => exact absurd rfl hne
  | cons x r ih =>
    obtain ⟨hx, hxne⟩ := h x (by simp)
    cases r with
    | nil => simpa using ⟨hx, hxne⟩
    | cons y s =>
      obtain ⟨hsr, hrne⟩ := ih (fun z hz => h z (List.mem_cons_of_mem _ hz)) (by simp)
      obtain ⟨c, t, hct⟩ : ∃ c t, x = c :: t := by
        cases x with
        | nil => exact absurd rfl hxne
        | cons c t => exact ⟨c, t, rfl⟩
      have hcf : pyIsSpace c = false :=
        dropWhile_head_false (hct ▸ stripInv_dropWhile hx)
      constructor
      · have hflat : (x :: y :: s).flatten = x ++ (y :: s).flatten := rfl
        rw [hflat, hct]
        apply pyStrip_of_parts
        · rw [List.cons_append]
          simp [List.dropWhile, hcf]
        · exact dropTrailing_append (stripInv_dropTrailing hsr) hrne
      · have : (x :: y :: s).flatten = x ++ (y :: s).flatten := rfl
        rw [this, hct]
        simp

theorem pyFind_eq_zero (needle s : Str) :
    (pyFind needle s == some 0) = needle.isPrefixOf s := by
  cases s with
  | nil =>
    unfold pyFind
    by_cases h : needle.isPrefixOf ([] : Str) <;> simp [h]
  | cons c t =>
    unfold pyFind
    by_cases h : needle.isPrefixOf (c :: t)
    · simp [h]
    · rw [if_neg h]
      have hb : needle.isPrefixOf (c :: t) = false := by
        cases hb : needle.isPrefixOf (c :: t)
        · rfl
        · exact absurd (by simpa using hb) h
      rw [hb]
      cases pyFind needle t <;> simp

theorem findDelimPair_eq (bare : Str) :
    findDelimPair bare = COMMENT_DELIMITERS.find? (fun p => p.1.isPrefixOf bare) := by
  unfold findDelimPair
  congr 1
  funext p
  exact pyFind_eq_zero p.1 bare

/-! ## Scanner evaluation lemmas for hash-comment annotation lines -/

theorem process_line_hash_tag (f : Str) (hsf : pyStrip f = f) (hne : f ≠ []) (st : PState) :
    process_line (S "# @@graph " ++ f) st =
      finishTail { st with multiline_comment_terminator := [], graphtag_object_json := f } true := by
  have hdt : dropTrailing f = f := stripInv_dropTrailing hsf
  have hdw : f.dropWhile pyIsSpace = f := stripInv_dropWhile hsf
  have hline : pyStrip (S "# @@graph " ++ f) = S "# @@graph " ++ f := by
    apply pyStrip_of_parts
    · rfl
    · exact dropTrailing_append hdt hne
  have hfd : findDelimPair (S "# @@graph " ++ f) = some (S "#", []) := by
    rw [findDelimPair_eq]; rfl
  have hb1 : pyStrip (pyReplaceFirst GRAPHTAG [] (S "@@graph " ++ f)) = f := by
    show pyStrip (' ' :: f) = f
    unfold pyStrip
    rw [show (' ' :: f).dropWhile pyIsSpace = f.dropWhile pyIsSpace from by
      simp [List.dropWhile, pyIsSpace], hdw, hdt]
  unfold process_line
  rw [hline, if_neg (fun hc => hne (List.append_eq_nil.mp hc).2), hfd]
  show commentBranch (pyStrip (pyReplaceFirst (S "#") [] (S "# @@graph " ++ f))) [] st = _
  have hrep : pyStrip (pyReplaceFirst (S "#") [] (S "# @@graph " ++ f)) = S "@@graph " ++ f := by
    show pyStrip (' ' :: (S "@@graph " ++ f)) = S "@@graph " ++ f
    unfold pyStrip
    rw [show (' ' :: (S "@@graph " ++ f)).dropWhile pyIsSpace = S "@@graph " ++ f from rfl]
    exact dropTrailing_append hdt hne
  rw [hrep]
  unfold commentBranch
  rw [show GRAPHTAG.isPrefixOf (S "@@graph " ++ f) = true from rfl]
  simp only [if_pos rfl, if_pos trivial, hb1]

theorem process_line_hash_cont (x : Str) (hsx : pyStrip x = x) (hne : x ≠ [])
    (hnt : GRAPHTAG.isPrefixOf x = false) (st : PState)
    (hsr : st.still_reading_graphtag_object = true) :
    process_line (S "# " ++ x) st =
      finishTail { st with multiline_comment_terminator := [],
                           graphtag_object_json := st.graphtag_object_json ++ x } false := by
  have hdt : dropTrailing x = x := stripInv_dropTrailing hsx
  have hdw : x.dropWhile pyIsSpace = x := stripInv_dropWhile hsx
  have hline : pyStrip (S "# " ++ x) = S "# " ++ x := by
    apply pyStrip_of_parts
    · rfl
    · exact dropTrailing_append hdt hne
  have hfd : findDelimPair (S "# " ++ x) = some (S "#", []) := by
    rw [findDelimPair_eq]; rfl
  unfold process_line
  rw [hline, if_neg (fun hc => hne (List.append_eq_nil.mp hc).2), hfd]
  show commentBranch (pyStrip (pyReplaceFirst (S "#") [] (S "# " ++ x))) [] st = _
  have hrep : pyStrip (pyReplaceFirst (S "#") [] (S "# " ++ x)) = x := by
    show pyStrip (' ' :: x) = x
    unfold pyStrip
    rw [show (' ' :: x).dropWhile pyIsSpace = x.dropWhile pyIsSpace from by
      simp [List.dropWhile, pyIsSpace], hdw, hdt]
  rw [hrep]
  unfold commentBranch
  rw [hnt]
  simp only [if_pos rfl, Bool.false_eq_true, if_false, hsr, if_true]

theorem finishTail_none (st : PState) (b : Bool) (hne : st.graphtag_object_json ≠ [])
    (hbr : braceSub st.graphtag_object_json = none) :
    finishTail st b = { st with still_reading_graphtag_object := true } := by
  unfold finishTail
  rw [if_neg hne, hbr]

theorem finishTail_some (st : PState) (b : Bool) (res : Str)
    (hne : st.graphtag_object_json ≠ [])
    (hbr : braceSub st.graphtag_object_json = some res) :
    finishTail st b =
      { process_json (pyStrip res)
          { st with graphtag_object_json := pyStrip res,
                    still_reading_graphtag_object := false } with
        graphtag_object_json := [] } := by
  unfold finishTail
  rw [if_neg hne, hbr]

/-- Feeding continuation fragments of an already-open annotation through
hash-comment lines appends them all, provided no proper intermediate
accumulation passes the closing-brace test. -/
theorem splitRun (ma : Bool) (ne nw ng : Nat) (gs : List (Str × Graph)) :
    ∀ (rest : List Str) (a : Str),
    (∀ x ∈ rest, pyStrip x = x ∧ x ≠ [] ∧ GRAPHTAG.isPrefixOf x = false) →
    (∀ j, j + 1 < rest.length → braceSub (a ++ ((rest.take (j + 1)).flatten)) = none) →
    rest ≠ [] → a ≠ [] →
    runLines (⟨ma, [], a, true, ne, nw, ng, gs⟩ : PState) (rest.map (fun x => S "# " ++ x)) =
      finishTail (⟨ma, [], a ++ rest.flatten, true, ne, nw, ng, gs⟩ : PState) false := by
  intro rest
  induction rest with
  | nil => intro a _ _ hne _; exact absurd rfl hne
  | cons x r ih =>
    intro a hx hmid _ hane
    obtain ⟨hsx, hxne, hxnt⟩ := hx x (by simp)
    have hstep := process_line_hash_cont x hsx hxne hxnt
      (⟨ma, [], a, true, ne, nw, ng, gs⟩ : PState) rfl
    show runLines (process_line (S "# " ++ x) (⟨ma, [], a, true, ne, nw, ng, gs⟩ : PState))
      (r.map (fun x => S "# " ++ x)) = _
    rw [hstep]
    have haxne : a ++ x ≠ [] := fun hc => hxne (List.append_eq_nil.mp hc).2
    cases r with
    | nil =>
      show finishTail (⟨ma, [], a ++ x, true, ne, nw, ng, gs⟩ : PState) false =
        finishTail (⟨ma, [], a ++ (x ++ []), true, ne, nw, ng, gs⟩ : PState) false
      rw [List.append_nil]
    | cons y s =>
      have hbr : braceSub (a ++ x) = none := by
        have h0 := hmid 0 (by simp)
        simpa using h0
      have hft := finishTail_none
        (⟨ma, [], a ++ x, true, ne, nw, ng, gs⟩ : PState) false haxne hbr
      show runLines (finishTail (⟨ma, [], a ++ x, true, ne, nw, ng, gs⟩ : PState) false)
        ((y :: s).map (fun x => S "# " ++ x)) = _
      rw [hft]
      have hmid' : ∀ j, j + 1 < (y :: s).length →
          braceSub ((a ++ x) ++ (((y :: s).take (j + 1)).flatten)) = none := by
        intro j hj
        have := hmid (j + 1) (by simp at hj ⊢; omega)
        rw [List.append_assoc]
        exact this
      have hres := ih (a ++ x) (fun z hz => hx z (List.mem_cons_of_mem _ hz)) hmid'
        (by simp) haxne
      rw [List.append_assoc] at hres
      exact hres

/-- Claim C1 (amended): an annotation payload split into fragments that the
scanner appends verbatim (each fragment free of surrounding whitespace, no
continuation fragment beginning with the annotation marker) and whose
proper initial accumulations never pass the closing-brace test is
processed to exactly the same final state as the same payload given on a
single line, whenever the full payload passes the closing-brace test. -/
theorem split_payload_equiv (f : Str) (fs : List Str) (st : PState)
    (hall : ∀ x ∈ f :: fs, pyStrip x = x ∧ x ≠ [])
    (hcont : ∀ x ∈ fs, GRAPHTAG.isPrefixOf x = false)
    (hmid : ∀ k, k + 1 < (f :: fs).length → braceSub (((f :: fs).take (k + 1)).flatten) = none)
    (hfire : braceSub ((f :: fs).flatten) ≠ none) :
    runLines st ((S "# @@graph " ++ f) :: fs.map (fun x => S "# " ++ x)) =
      runLines st [S "# @@graph " ++ (f :: fs).flatten] := by
  obtain ⟨hsf, hfne⟩ := hall f (by simp)
  cases fs with
  | nil =>
    show runLines st [S "# @@graph " ++ f] = runLines st [S "# @@graph " ++ (f ++ [])]
    rw [List.append_nil]
  | cons y r =>
    obtain ⟨hsp, hpne⟩ := stripInv_flatten hall (by simp)
    obtain ⟨res, hres⟩ := Option.ne_none_iff_exists'.mp hfire
    have h0 : braceSub f = none := by
      have := hmid 0 (by simp)
      simpa using this
    show runLines (process_line (S "# @@graph " ++ f) st) ((y :: r).map (fun x => S "# " ++ x)) =
      process_line (S "# @@graph " ++ (f :: y :: r).flatten) st
    rw [process_line_hash_tag f hsf hfne st]
    rw [finishTail_none
      { st with multiline_comment_terminator := [], graphtag_object_json := f } true hfne h0]
    have hmid' : ∀ j, j + 1 < (y :: r).length →
        braceSub (f ++ (((y :: r).take (j + 1)).flatten)) = none := by
      intro j hj
      exact hmid (j + 1) (by simp at hj ⊢; omega)
    have hsplit := splitRun st.multiline_comment_active st.num_errors st.num_warnings
      st.num_graphtags st.graphs (y :: r) f
      (fun z hz => ⟨(hall z (List.mem_cons_of_mem _ hz)).1,
        (hall z (List.mem_cons_of_mem _ hz)).2, hcont z hz⟩)
      hmid' (by simp) hfne
    show runLines
      (⟨st.multiline_comment_active, [], f, true, st.num_errors, st.num_warnings,
        st.num_graphtags, st.graphs⟩ : PState) (List.map (fun x => S "# " ++ x) (y :: r)) =
      process_line (S "# @@graph " ++ (f :: y :: r).flatten) st
    rw [hsplit]
    rw [process_line_hash_tag ((f :: y :: r).flatten) hsp hpne st]
    rw [finishTail_some
      (⟨st.multiline_comment_active, [], f ++ (y :: r).flatten, true, st.num_errors,
        st.num_warnings, st.num_graphtags, st.graphs⟩ : PState) false res
      (fun hc => hfne (List.append_eq_nil.mp hc).1) hres]
    rw [finishTail_some
      { st with multiline_comment_terminator := [],
                graphtag_object_json := (f :: y :: r).flatten } true res hpne hres]

/-! ## Frame lemmas: the decoder and the common tail never touch the
scanner fields they do not own -/

theorem processNodeData_scanner_frame (rec0 : List (Str × Str)) (gid : Str) (g : Graph)
    (st : PState) :
    (processNodeData rec0 gid g st).multiline_comment_active = st.multiline_comment_active ∧
    (processNodeData rec0 gid g st).multiline_comment_terminator = st.multiline_comment_terminator ∧
    (processNodeData rec0 gid g st).graphtag_object_json = st.graphtag_object_json ∧
    (processNodeData rec0 gid g st).still_reading_graphtag_object =
      st.still_reading_graphtag_object := by
  unfold processNodeData write_error_msg
  dsimp only
  repeat' split
  all_goals exact ⟨rfl, rfl, rfl, rfl⟩

theorem processEdgeData_scanner_frame (rec0 : List (Str × Str)) (gid : Str) (g : Graph)
    (st : PState) :
    (processEdgeData rec0 gid g st).multiline_comment_active = st.multiline_comment_active ∧
    (processEdgeData rec0 gid g st).multiline_comment_terminator = st.multiline_comment_terminator ∧
    (processEdgeData rec0 gid g st).graphtag_object_json = st.graphtag_object_json ∧
    (processEdgeData rec0 gid g st).still_reading_graphtag_object =
      st.still_reading_graphtag_object := by
  unfold processEdgeData write_error_msg
  dsimp only
  repeat' split
  all_goals exact ⟨rfl, rfl, rfl, rfl⟩

theorem processDefinition_scanner_frame (rec0 : List (Str × Str)) (st : PState) :
    (processDefinition rec0 st).multiline_comment_active = st.multiline_comment_active ∧
    (processDefinition rec0 st).multiline_comment_terminator = st.multiline_comment_terminator ∧
    (processDefinition rec0 st).graphtag_object_json = st.graphtag_object_json ∧
    (processDefinition rec0 st).still_reading_graphtag_object =
      st.still_reading_graphtag_object := by
  unfold processDefinition write_error_msg
  dsimp only
  repeat' split
  all_goals exact ⟨rfl, rfl, rfl, rfl⟩

theorem processData_scanner_frame (rec0 : List (Str × Str)) (st : PState) :
    (processData rec0 st).multiline_comment_active = st.multiline_comment_active ∧
    (processData rec0 st).multiline_comment_terminator = st.multiline_comment_terminator ∧
    (processData rec0 st).graphtag_object_json = st.graphtag_object_json ∧
    (processData rec0 st).still_reading_graphtag_object =
      st.still_reading_graphtag_object := by
  unfold processData write_error_msg
  dsimp only
  repeat' split
  all_goals first
    | exact ⟨rfl, rfl, rfl, rfl⟩
    | exact processNodeData_scanner_frame _ _ _ _
    | exact processEdgeData_scanner_frame _ _ _ _

theorem process_json_scanner_frame (p : Str) (st : PState) :
    (process_json p st).multiline_comment_active = st.multiline_comment_active ∧
    (process_json p st).multiline_comment_terminator = st.multiline_comment_terminator ∧
    (process_json p st).graphtag_object_json = st.graphtag_object_json ∧
    (process_json p st).still_reading_graphtag_object = st.still_reading_graphtag_object := by
  unfold process_json write_error_msg
  dsimp only
  repeat' split
  all_goals first
    | exact ⟨rfl, rfl, rfl, rfl⟩
    | exact processDefinition_scanner_frame _ _
    | exact processData_scanner_frame _ _

theorem finishTail_scanner_frame (st : PState) (b : Bool) :
    (finishTail st b).multiline_comment_active = st.multiline_comment_active ∧
    (finishTail st b).multiline_comment_terminator = st.multiline_comment_terminator := by
  unfold finishTail
  repeat' split
  all_goals first
    | exact ⟨rfl, rfl⟩
    | exact ⟨(process_json_scanner_frame _ _).1, (process_json_scanner_frame _ _).2.1⟩

/-! ## Claim C2: the quote normalizer -/

/-- Claim C2: the normalizer scans character by character toggling an
inside-double-quotes flag at each literal double quote, rewrites every
single quote seen while the flag is off into a double quote and leaves
single quotes seen while the flag is on untouched; on the raw fragment
with mixed quoting shown in the spec it yields the strictly double-quoted
form, which decodes to the record mapping `a` to the apostrophe-carrying
value and `b` to `c`. -/
theorem normalizer_quote_rules :
    (∀ dq t, normalizeQuotesAux dq ('"' :: t) = '"' :: normalizeQuotesAux (!dq) t) ∧
    (∀ t, normalizeQuotesAux false (singleQuote :: t) = '"' :: normalizeQuotesAux false t) ∧
    (∀ t, normalizeQuotesAux true (singleQuote :: t) = singleQuote :: normalizeQuotesAux true t) ∧
    normalizeQuotes (S "\x7b'a':\"it's\", 'b':'c'\x7d") =
      S "\x7b\"a\":\"it's\", \"b\":\"c\"\x7d" ∧
    jsonDecodeFlat (normalizeQuotes (S "\x7b'a':\"it's\", 'b':'c'\x7d")) =
      some [(S "a", S "it's"), (S "b", S "c")] ∧
    get_json_value [(S "a", S "it's"), (S "b", S "c")] (S "a") = S "it's" ∧
    get_json_value [(S "a", S "it's"), (S "b", S "c")] (S "b") = S "c" := by
  exact ⟨fun dq t => rfl, fun t => rfl, fun t => rfl, by decide, by decide, by decide, by decide⟩

/-! ## Claim C9: markerless lines -/

/-- Claim C9 counterexample: with a multi-line comment open and an active
accumulation, the markerless line `foo` (its trimmed form starts with no
delimiter of the table, and it contains neither a delimiter, a terminator,
nor the annotation marker anywhere) is appended to the accumulator, so the
scanner state does change. -/
theorem markerless_line_counterexample :
    findDelimPair (pyStrip (S "foo")) = none ∧
    pyFind (S "/*") (S "foo") = none ∧ pyFind (S "//") (S "foo") = none ∧
    pyFind (S "#") (S "foo") = none ∧ pyFind (S "*/") (S "foo") = none ∧
    pyFind GRAPHTAG (S "foo") = none ∧
    process_line (S "foo") stOpenReading ≠ stOpenReading := by
  decide

/-- Claim C9 (amended): when no multi-line comment is open, a line whose
trimmed form starts with no delimiter of the table leaves the scanner
state and the registry completely unchanged. -/
theorem markerless_line_frame (st : PState) (line : Str)
    (hml : st.multiline_comment_active = false)
    (hnd : findDelimPair (pyStrip line) = none) :
    process_line line st = st := by
  unfold process_line
  by_cases hb : pyStrip line = []
  · rw [if_pos hb]
  · rw [if_neg hb, hnd]
    unfold nonCommentBranch
    rw [hml]
    simp

/-- Witness for the amended claim C9 at a concrete quiescent state. -/
theorem markerless_line_frame_witness :
    stWithG.multiline_comment_active = false ∧
    findDelimPair (pyStrip (S "foo")) = none ∧
    process_line (S "foo") stWithG = stWithG :=
  ⟨by decide, by decide, markerless_line_frame stWithG (S "foo") (by decide) (by decide)⟩

/-! ## Claim C5: when the delimiter table is consulted -/

theorem findDelimPair_ne_nil {bare sd ed : Str} (h : findDelimPair bare = some (sd, ed)) :
    bare ≠ [] := by
  intro hb
  subst hb
  rw [show findDelimPair ([] : Str) = none from by decide] at h
  exact Option.noConfusion h

theorem commentBranch_mlTerm (bare0 ed : Str) (st : PState) :
    (commentBranch bare0 ed st).multiline_comment_terminator = ed := by
  unfold commentBranch
  dsimp only
  repeat' split
  all_goals first
    | rfl
    | exact (finishTail_scanner_frame _ _).2

/-- Claim C5 counterexample: with a multi-line comment open (state
`stOpenReading`, terminator the block-comment closer), the line `# y`
starts with a single-line delimiter of the table and the scanner handles
it as a fresh comment opening (overwriting the recorded terminator with
the empty single-line terminator and appending the fragment `y`), instead
of handling it solely by the terminator search / continuation logic as
the claim states. -/
theorem delimiter_table_counterexample :
    stOpenReading.multiline_comment_active = true ∧
    process_line (S "# y") stOpenReading ≠ process_line_claimC5 (S "# y") stOpenReading ∧
    (process_line (S "# y") stOpenReading).multiline_comment_terminator = [] ∧
    (process_line_claimC5 (S "# y") stOpenReading).multiline_comment_terminator = S "*/" := by
  decide

/-- Claim C5 (amended): the ordered comment-delimiter table is consulted
for every non-empty trimmed line, regardless of whether a multi-line
comment is open; a line whose trimmed form starts with a delimiter is
handled as a fresh comment opening, with that pair's end delimiter
recorded as the terminator; only a line starting with no delimiter while
a multi-line comment is open is handled by the terminator search /
continuation logic. -/
theorem delimiter_table_every_line :
    (∀ (st : PState) (line sd ed : Str), findDelimPair (pyStrip line) = some (sd, ed) →
      process_line line st =
        commentBranch (pyStrip (pyReplaceFirst sd [] (pyStrip line))) ed st ∧
      (process_line line st).multiline_comment_terminator = ed) ∧
    (∀ (st : PState) (line : Str), st.multiline_comment_active = true →
      findDelimPair (pyStrip line) = none → pyStrip line ≠ [] →
      process_line line st = nonCommentBranch (pyStrip line) st) := by
  constructor
  · intro st line sd ed h
    have hne := findDelimPair_ne_nil h
    have heq : process_line line st =
        commentBranch (pyStrip (pyReplaceFirst sd [] (pyStrip line))) ed st := by
      unfold process_line
      rw [if_neg hne, h]
    exact ⟨heq, by rw [heq]; exact commentBranch_mlTerm _ _ _⟩
  · intro st line _ hnd hne
    unfold process_line
    rw [if_neg hne, hnd]

/-- Witness for the amended claim C5 at concrete inputs: the line `# y`
processed while a multi-line comment is open records the single-line
(empty) terminator, and the markerless line `foo` is handled by the
continuation logic. -/
theorem delimiter_table_every_line_witness :
    findDelimPair (pyStrip (S "# y")) = some (S "#", []) ∧
    stOpenReading.multiline_comment_active = true ∧
    (process_line (S "# y") stOpenReading).multiline_comment_terminator = [] ∧
    process_line (S "foo") stOpenReading = nonCommentBranch (pyStrip (S "foo")) stOpenReading :=
  ⟨by decide, by decide,
    (delimiter_table_every_line.1 stOpenReading (S "# y") (S "#") [] (by decide)).2,
    delimiter_table_every_line.2 stOpenReading (S "foo") (by decide) (by decide) (by decide)⟩

/-! ## Claim C6: closing a multi-line comment -/

/-- Claim C6 counterexample: while a multi-line comment is open (state
`stOpenEmpty`, still reading, empty accumulator), the line `abc */ def`
contains the terminator; the scanner does close the comment, but the
contributed fragment is the whole line with every terminator occurrence
removed and then stripped (`abc  def`), not the text before the
terminator (`abc`): the text after the terminator is kept. -/
theorem terminator_fragment_counterexample :
    (process_line (S "abc */ def") stOpenEmpty).multiline_comment_active = false ∧
    (process_line (S "abc */ def") stOpenEmpty).graphtag_object_json = S "abc  def" ∧
    pyStrip (textBeforeFirst (pyStrip (S "abc */ def")) stOpenEmpty.multiline_comment_terminator) =
      S "abc" ∧
    (S "abc  def" : Str) ≠ S "abc" := by
  decide

/-- Claim C6 (amended): a line processed while a multi-line comment is
open that does not start a new comment but contains the comment's
terminator closes the comment (clearing the open flag); when an
annotation is still being read, the fragment appended to the accumulator
is the trimmed line with every occurrence of the terminator removed and
surrounding whitespace stripped (so text after the terminator is kept);
when no annotation is being read, the line only clears the open flag. -/
theorem terminator_close_behavior (st : PState) (line : Str)
    (hml : st.multiline_comment_active = true)
    (hnd : findDelimPair (pyStrip line) = none)
    (hne : pyStrip line ≠ [])
    (hterm : pyFind st.multiline_comment_terminator (pyStrip line) ≠ none) :
    (process_line line st).multiline_comment_active = false ∧
    (st.still_reading_graphtag_object = true →
      process_line line st =
        finishTail { st with multiline_comment_active := false,
                             graphtag_object_json := st.graphtag_object_json ++
                               pyStrip (pyReplaceAll st.multiline_comment_terminator []
                                 (pyStrip line)) } false) ∧
    (st.still_reading_graphtag_object = false →
      process_line line st = { st with multiline_comment_active := false }) := by
  obtain ⟨pos, hpos⟩ := Option.ne_none_iff_exists'.mp hterm
  have hbranch : process_line line st = nonCommentBranch (pyStrip line) st := by
    unfold process_line
    rw [if_neg hne, hnd]
  rw [hbranch]
  unfold nonCommentBranch
  rw [hml]
  simp only [if_true, hpos]
  cases hsr : st.still_reading_graphtag_object with
  | true =>
    refine ⟨?_, fun _ => rfl, fun hc => absurd (hsr ▸ hc) (by simp [hsr])⟩
    exact (finishTail_scanner_frame _ _).1
  | false =>
    exact ⟨rfl, fun hc => absurd (hsr ▸ hc) (by simp [hsr]), fun _ => rfl⟩

/-- Witness for the amended claim C6: the line `abc */ def` closes the
open comment of `stOpenEmpty` and contributes the fragment `abc  def`. -/
theorem terminator_close_behavior_witness :
    stOpenEmpty.multiline_comment_active = true ∧
    findDelimPair (pyStrip (S "abc */ def")) = none ∧
    pyStrip (S "abc */ def") ≠ [] ∧
    pyFind stOpenEmpty.multiline_comment_terminator (pyStrip (S "abc */ def")) ≠ none ∧
    (process_line (S "abc */ def") stOpenEmpty).multiline_comment_active = false ∧
    process_line (S "abc */ def") stOpenEmpty =
      finishTail { stOpenEmpty with multiline_comment_active := false,
                                    graphtag_object_json := stOpenEmpty.graphtag_object_json ++
                                      pyStrip (pyReplaceAll
                                        stOpenEmpty.multiline_comment_terminator []
                                        (pyStrip (S "abc */ def"))) } false :=
  ⟨by decide, by decide, by decide, by decide,
    (terminator_close_behavior stOpenEmpty (S "abc */ def")
      (by decide) (by decide) (by decide) (by decide)).1,
    (terminator_close_behavior stOpenEmpty (S "abc */ def")
      (by decide) (by decide) (by decide) (by decide)).2.1 rfl⟩

/-! ## Claim C1: splitting an annotation payload across lines -/

/-- Claim C1 counterexample: the node payload `payloadC1` has its balanced
closing brace outside any quoted text (the closing-brace search succeeds
and keeps the whole payload), yet splitting it into the two fragments
`fragC1a`/`fragC1b` — cut just after a closing brace that sits inside a
double-quoted value — makes the accumulator pass the closing-brace test
early: the split run decodes a truncated string (one error, no node
added), while the single-line run adds the node, so the final states
differ. -/
theorem split_payload_counterexample :
    braceSub payloadC1 = some payloadC1 ∧
    fragC1a ++ fragC1b = payloadC1 ∧
    runLines stWithG [S "# @@graph " ++ fragC1a, S "# " ++ fragC1b] ≠
      runLines stWithG [S "# @@graph " ++ payloadC1] := by
  decide

/-- Witness for the amended claim C1: a node payload split into two
well-behaved fragments is processed identically to the single-line form. -/
theorem split_payload_equiv_witness :
    runLines stWithG
        [S "# @@graph " ++ S "\x7b'graphid':'g','datatype':'node',",
         S "# " ++ S "'nodename':'A','nodetype':'state'\x7d"] =
      runLines stWithG
        [S "# @@graph " ++
          ((S "\x7b'graphid':'g','datatype':'node'," : Str) ::
            [S "'nodename':'A','nodetype':'state'\x7d"]).flatten] :=
  split_payload_equiv (S "\x7b'graphid':'g','datatype':'node',")
    [S "'nodename':'A','nodetype':'state'\x7d"] stWithG
    (by decide) (by decide)
    (by
      intro k hk
      have hk0 : k = 0 := by
        simp only [List.length_cons, List.length_nil] at hk
        omega
      subst hk0
      decide)
    (by decide)

/-! ## Claim C4: data annotation naming an unregistered graph -/

/-- Claim C4: a data annotation (command `data`, explicit or defaulted)
whose non-empty `graphid` is not registered increases the error counter by
exactly one (and the tag counter, which counts every annotation) and
leaves every other component of the state — in particular the whole graph
registry — unchanged. -/
theorem undefined_graphid_error (st : PState) (p : Str) (rec0 : List (Str × Str)) (gid : Str)
    (hdec : jsonDecodeFlat (normalizeQuotes p) = some rec0)
    (hcmd : (if get_json_value rec0 (S "command") = [] then COMMAND_DATA
             else get_json_value rec0 (S "command")) = COMMAND_DATA)
    (hgid : get_json_value rec0 (S "graphid") = gid)
    (hgne : gid ≠ [])
    (hreg : lookupAssoc st.graphs gid = none) :
    process_json p st =
      { st with num_errors := st.num_errors + 1,
                num_graphtags := st.num_graphtags + 1 } := by
  unfold process_json
  dsimp only
  rw [hdec]
  dsimp only
  rw [hcmd]
  rw [if_neg (by simp), if_neg (by decide)]
  unfold processData
  dsimp only
  rw [hgid, if_neg hgne, hreg]
  rfl

/-- Witness for claim C4: a node-data payload naming the unregistered
graph id `nope` against the registry holding only `g`. -/
theorem undefined_graphid_error_witness :
    jsonDecodeFlat (normalizeQuotes (S "\x7b'graphid':'nope','datatype':'node'\x7d")) =
      some [(S "graphid", S "nope"), (S "datatype", S "node")] ∧
    lookupAssoc stWithG.graphs (S "nope") = none ∧
    process_json (S "\x7b'graphid':'nope','datatype':'node'\x7d") stWithG =
      { stWithG with num_errors := stWithG.num_errors + 1,
                     num_graphtags := stWithG.num_graphtags + 1 } :=
  ⟨by decide, by decide,
    undefined_graphid_error stWithG (S "\x7b'graphid':'nope','datatype':'node'\x7d")
      [(S "graphid", S "nope"), (S "datatype", S "node")] (S "nope")
      (by decide) (by decide) (by decide) (by decide) (by decide)⟩

/-! ## Claim C3: sequential per-graph node ids -/

theorem lookupAssoc_some_mem {α : Type} {l : List (Str × α)} {k : Str} {v : α}
    (h : lookupAssoc l k = some v) : ∃ q, q ∈ l ∧ q.2 = v := by
  unfold lookupAssoc at h
  cases hf : l.find? (fun p => p.1 == k) with
  | none => rw [hf] at h; exact Option.noConfusion h
  | some q =>
    rw [hf] at h
    exact ⟨q, List.mem_of_find?_eq_some hf, Option.some.inj h⟩

theorem mem_dictSet {α : Type} {l : List (Str × α)} {k : Str} {v : α} {q : Str × α}
    (h : q ∈ dictSet l k v) : q.2 = v ∨ q ∈ l := by
  unfold dictSet at h
  split at h
  · obtain ⟨p, hp, hfp⟩ := List.mem_map.mp h
    by_cases hk : p.1 = k
    · left; rw [← hfp]; simp [hk]
    · right; rw [← hfp]; simp [hk]; exact hp
  · rcases List.mem_append.mp h with h1 | h2
    · right; exact h1
    · left
      have : q = (k, v) := by simpa using h2
      rw [this]

theorem lookupAssoc_dictSet_ne {α : Type} (l : List (Str × α)) (k gid : Str) (v : α)
    (hne : k ≠ gid) : lookupAssoc (dictSet l gid v) k = lookupAssoc l k := by
  unfold dictSet
  split
  · unfold lookupAssoc
    have hfind : ∀ (m : List (Str × α)),
        List.find? (fun p => p.1 == k) (m.map (fun p => if p.1 = gid then (p.1, v) else p)) =
          List.find? (fun p => p.1 == k) m := by
      intro m
      induction m with
      | nil => rfl
      | cons p t ih =>
        show List.find? (fun q => q.1 == k)
            ((if p.1 = gid then (p.1, v) else p) ::
              t.map (fun q => if q.1 = gid then (q.1, v) else q)) =
          List.find? (fun q => q.1 == k) (p :: t)
        by_cases hp : p.1 = gid
        · have hk : (p.1 == k) = false := by
            simp only [beq_eq_false_iff_ne]
            intro hc
            exact hne (hc ▸ hp)
          rw [if_pos hp, List.find?_cons, List.find?_cons]
          have hkl : ((((p.1, v)) : Str × α).1 == k) = false := hk
          rw [hkl]
          exact ih
        · rw [if_neg hp, List.find?_cons, List.find?_cons]
          by_cases hk : p.1 = k
          · have hb : (p.1 == k) = true := by simp [hk]
            rw [hb]
          · have hb : (p.1 == k) = false := by simp [hk]
            rw [hb]
            exact ih
    rw [hfind]
  · unfold lookupAssoc
    rw [List.find?_append]
    have hlast : List.find? (fun p => p.1 == k) [(gid, v)] = none := by
      simp [List.find?_cons, Ne.symm hne]
    rw [hlast]
    cases List.find? (fun p => p.1 == k) l <;> rfl

theorem add_node_nodes (g : Graph) (nodeid nodename nodetype group : Str) :
    (g.add_node nodeid nodename nodetype group).nodes =
      g.nodes ++ [⟨nodeid, nodename, nodetype, group⟩] := by
  unfold Graph.add_node
  dsimp only
  repeat' split
  all_goals rfl

theorem nodeSeqIds_add_node {g : Graph} (hg : NodeSeqIds g) (nodename nodetype group : Str) :
    NodeSeqIds (g.add_node (nodeIdStr (g.nodes.length + 1)) nodename nodetype group) := by
  intro i hi
  have hn := add_node_nodes g (nodeIdStr (g.nodes.length + 1)) nodename nodetype group
  have hlen : (g.add_node (nodeIdStr (g.nodes.length + 1)) nodename nodetype group).nodes.length =
      g.nodes.length + 1 := by
    rw [hn]; simp
  rw [List.get_eq_getElem]
  by_cases hlt : i < g.nodes.length
  · have hgl : (g.add_node (nodeIdStr (g.nodes.length + 1)) nodename nodetype group).nodes[i] =
        g.nodes[i] := by
      simp only [hn]
      exact List.getElem_append_left hlt
    rw [hgl]
    exact hg i hlt
  · have hieq : i = g.nodes.length := by
      rw [hlen] at hi
      omega
    subst hieq
    have hgl : (g.add_node (nodeIdStr (g.nodes.length + 1)) nodename nodetype group).nodes[g.nodes.length] =
        Node.mk (nodeIdStr (g.nodes.length + 1)) nodename nodetype group := by
      simp only [hn]
      exact List.getElem_concat_length _ _ _ rfl _
    rw [hgl]

theorem add_edge_nodes (g : Graph) (f t l ty : Str) :
    (g.add_edge f t l ty).nodes = g.nodes := rfl

theorem regSeqIds_dictSet {st : PState} (h : RegSeqIds st) {gid : Str} {v : Graph}
    (hv : NodeSeqIds v) : ∀ q ∈ dictSet st.graphs gid v, NodeSeqIds q.2 := by
  intro q hq
  rcases mem_dictSet hq with h1 | h2
  · rw [h1]; exact hv
  · exact h q h2

theorem processNodeData_regseq (rec0 : List (Str × Str)) (gid : Str) (g : Graph) (st : PState)
    (h : RegSeqIds st) (hg : NodeSeqIds g) : RegSeqIds (processNodeData rec0 gid g st) := by
  unfold processNodeData write_error_msg
  dsimp only
  repeat' split
  all_goals first
    | exact fun q hq => h q hq
    | exact regSeqIds_dictSet h (nodeSeqIds_add_node hg _ _ _)

theorem processEdgeData_regseq (rec0 : List (Str × Str)) (gid : Str) (g : Graph) (st : PState)
    (h : RegSeqIds st) (hg : NodeSeqIds g) : RegSeqIds (processEdgeData rec0 gid g st) := by
  have hedge : NodeSeqIds (g.add_edge (get_json_value rec0 (S "fromnodename"))
      (get_json_value rec0 (S "tonodename")) (get_json_value rec0 (S "label"))
      (if get_json_value rec0 (S "edgetype") = [] then EDGETYPE_DEFAULT
       else get_json_value rec0 (S "edgetype"))) := by
    intro i hi
    exact hg i hi
  unfold processEdgeData write_error_msg
  dsimp only
  repeat' split
  all_goals first
    | exact fun q hq => h q hq
    | exact regSeqIds_dictSet h hedge

theorem processDefinition_regseq (rec0 : List (Str × Str)) (st : PState)
    (h : RegSeqIds st) : RegSeqIds (processDefinition rec0 st) := by
  unfold processDefinition write_error_msg
  dsimp only
  repeat' split
  all_goals first
    | exact fun q hq => h q hq
    | exact regSeqIds_dictSet h (fun i hi => absurd hi (by simp [Graph.init]))

theorem processData_regseq (rec0 : List (Str × Str)) (st : PState)
    (h : RegSeqIds st) : RegSeqIds (processData rec0 st) := by
  unfold processData
  dsimp only
  split
  · exact fun q hq => h q hq
  · split
    · exact fun q hq => h q hq
    · rename_i g hg
      have hgseq : NodeSeqIds g := by
        obtain ⟨q, hq, hq2⟩ := lookupAssoc_some_mem hg
        rw [← hq2]
        exact h q hq
      repeat' split
      all_goals first
        | exact fun q hq => h q hq
        | exact processNodeData_regseq _ _ _ _ h hgseq
        | exact processEdgeData_regseq _ _ _ _ h hgseq

theorem process_json_regseq (p : Str) (st : PState)
    (h : RegSeqIds st) : RegSeqIds (process_json p st) := by
  unfold process_json write_error_msg
  dsimp only
  split
  · exact fun q hq => h q hq
  · repeat' split
    all_goals first
      | exact fun q hq => h q hq
      | exact processDefinition_regseq _ _ (fun q hq => h q hq)
      | exact processData_regseq _ _ (fun q hq => h q hq)

/-- Claim C3: a successfully decoded node annotation for graph `gid` is
assigned the id built from the letter `n` and the 2-digit zero-padded
1-based index derived from that graph's current node count, and only that
graph's registry entry is updated; a key different from the updated one
reads the same graph as before; the sequential-id property is preserved
by every annotation; hence in any run from the empty registry every
graph's nodes carry ids `n01`, `n02`, ... strictly sequentially — in
particular, a second independently defined graph starts again at `n01`. -/
theorem node_id_assignment :
    (∀ (st : PState) (p : Str) (rec0 : List (Str × Str)) (gid : Str) (g : Graph),
      jsonDecodeFlat (normalizeQuotes p) = some rec0 →
      (if get_json_value rec0 (S "command") = [] then COMMAND_DATA
       else get_json_value rec0 (S "command")) = COMMAND_DATA →
      get_json_value rec0 (S "graphid") = gid →
      gid ≠ [] →
      lookupAssoc st.graphs gid = some g →
      get_json_value rec0 (S "datatype") = DATATYPE_NODE →
      get_json_value rec0 (S "nodename") ≠ [] →
      get_json_value rec0 (S "nodetype") ≠ [] →
      (lookupAssoc GraphVizNodeTypes (get_json_value rec0 (S "nodetype"))).isNone = false →
      process_json p st =
        { st with num_graphtags := st.num_graphtags + 1,
                  graphs := dictSet st.graphs gid
                    (g.add_node (nodeIdStr (g.nodes.length + 1))
                      (get_json_value rec0 (S "nodename"))
                      (get_json_value rec0 (S "nodetype"))
                      (get_json_value rec0 (S "group"))) }) ∧
    (∀ (l : List (Str × Graph)) (k gid : Str) (v : Graph), k ≠ gid →
      lookupAssoc (dictSet l gid v) k = lookupAssoc l k) ∧
    (∀ (p : Str) (st : PState), RegSeqIds st → RegSeqIds (process_json p st)) ∧
    (∀ ps : List Str, RegSeqIds (runJsons initState ps)) := by
  refine ⟨?_, fun l k gid v hne => lookupAssoc_dictSet_ne l k gid v hne,
    fun p st h => process_json_regseq p st h, ?_⟩
  · intro st p rec0 gid g hdec hcmd hgid hgne hreg hdt hnn hnt hlk
    unfold process_json
    dsimp only
    rw [hdec]
    dsimp only
    rw [hcmd, if_neg (by simp), if_neg (by decide)]
    unfold processData
    dsimp only
    rw [hgid, if_neg hgne, hreg]
    dsimp only
    rw [hdt, if_neg (by decide), if_neg (by simp [DATATYPE_NODE, DATATYPE_EDGE, S]), if_pos rfl]
    unfold processNodeData
    dsimp only
    rw [if_neg hnn, if_neg hnt, hlk]
    rfl
  · intro ps
    have hinit : RegSeqIds initState := by
      intro q hq
      exact absurd hq (by simp [initState])
    have hgen : ∀ (qs : List Str) (st : PState), RegSeqIds st → RegSeqIds (runJsons st qs) := by
      intro qs
      induction qs with
      | nil => exact fun st h => h
      | cons p t ih => exact fun st h => ih _ (process_json_regseq p st h)
    exact hgen ps initState hinit

/-- Witness for claim C3: adding node `A` to the registered graph `g`
(zero nodes so far) assigns id `n01` and only rewrites the entry of `g`. -/
theorem node_id_assignment_witness :
    lookupAssoc stWithG.graphs (S "g") = some demoGraph ∧
    nodeIdStr (demoGraph.nodes.length + 1) = S "n01" ∧
    process_json (S "\x7b'graphid':'g','datatype':'node','nodename':'A','nodetype':'state'\x7d")
        stWithG =
      { stWithG with num_graphtags := stWithG.num_graphtags + 1,
                     graphs := dictSet stWithG.graphs (S "g")
                       (demoGraph.add_node (nodeIdStr (demoGraph.nodes.length + 1))
                         (S "A") (S "state") []) } :=
  ⟨by decide, by decide,
    node_id_assignment.1 stWithG
      (S "\x7b'graphid':'g','datatype':'node','nodename':'A','nodetype':'state'\x7d")
      [(S "graphid", S "g"), (S "datatype", S "node"), (S "nodename", S "A"),
       (S "nodetype", S "state")] (S "g") demoGraph
      (by decide) (by decide) (by decide) (by decide) (by decide) (by decide)
      (by decide) (by decide) (by decide)⟩

/-! ## Claim C7: the resolver -/

theorem resolveEdge_fst (m : List (Str × Str)) (e : Edge) :
    (resolveEdge m e).1 =
      { e with
        from_node_id := if e.from_node_id = []
          then (lookupAssoc m e.from_node_name).getD [] else e.from_node_id,
        to_node_id := if e.to_node_id = []
          then (lookupAssoc m e.to_node_name).getD [] else e.to_node_id } := by
  obtain ⟨fn, tn, lb, ty, fi, ti⟩ := e
  unfold resolveEdge
  by_cases hf : fi = [] <;> by_cases ht : ti = [] <;>
    cases h1 : lookupAssoc m fn <;> cases h2 : lookupAssoc m tn <;>
    simp [hf, ht, h1, h2]

theorem resolveEdge_snd (m : List (Str × Str)) (e : Edge)
    (hf : e.from_node_id = []) (ht : e.to_node_id = []) :
    (resolveEdge m e).2 =
      (if (lookupAssoc m e.from_node_name).isNone then 1 else 0) +
        (if (lookupAssoc m e.to_node_name).isNone then 1 else 0) := by
  obtain ⟨fn, tn, lb, ty, fi, ti⟩ := e
  simp only at hf ht
  unfold resolveEdge
  cases h1 : lookupAssoc m fn <;> cases h2 : lookupAssoc m tn <;>
    simp [hf, ht, h1, h2]

theorem resolveEdge_idem (m : List (Str × Str)) (e : Edge) :
    (resolveEdge m (resolveEdge m e).1).1 = (resolveEdge m e).1 := by
  rw [resolveEdge_fst m (resolveEdge m e).1, resolveEdge_fst m e]
  by_cases hf : e.from_node_id = [] <;> by_cases ht : e.to_node_id = [] <;>
    cases h1 : lookupAssoc m e.from_node_name <;> cases h2 : lookupAssoc m e.to_node_name <;>
    simp [hf, ht, h1, h2]

theorem resolve_edges_eq (g : Graph) :
    (g.resolve_edge_node_ids).1.edges =
      g.edges.map (fun e => (resolveEdge g.node_name_to_id_map e).1) := by
  unfold Graph.resolve_edge_node_ids
  dsimp only
  rw [List.map_map]
  rfl

theorem resolve_shape (g : Graph) :
    (g.resolve_edge_node_ids).1 =
      { g with edges := g.edges.map (fun e => (resolveEdge g.node_name_to_id_map e).1) } := by
  unfold Graph.resolve_edge_node_ids
  dsimp only
  rw [List.map_map]
  rfl

theorem resolve_graph_idem (g : Graph) :
    ((g.resolve_edge_node_ids).1.resolve_edge_node_ids).1 = (g.resolve_edge_node_ids).1 := by
  rw [resolve_shape g, resolve_shape]
  dsimp only
  rw [List.map_map]
  congr 1
  apply List.map_congr_left
  intro e _
  exact resolveEdge_idem g.node_name_to_id_map e

theorem resolveInOrder_perm (order order' : List Str) (reg : List (Str × Graph))
    (hp : order.Perm order') : resolveInOrder order reg = resolveInOrder order' reg := by
  unfold resolveInOrder
  induction hp generalizing reg with
  | nil => rfl
  | cons x _ ih =>
    simp only [List.foldl_cons]
    exact ih _
  | swap x y l =>
    simp only [List.foldl_cons]
    have hcomm :
        ((reg.map (fun p => if p.1 = y then (p.1, (p.2.resolve_edge_node_ids).1) else p)).map
          (fun p => if p.1 = x then (p.1, (p.2.resolve_edge_node_ids).1) else p)) =
        ((reg.map (fun p => if p.1 = x then (p.1, (p.2.resolve_edge_node_ids).1) else p)).map
          (fun p => if p.1 = y then (p.1, (p.2.resolve_edge_node_ids).1) else p)) := by
      rw [List.map_map, List.map_map]
      apply List.map_congr_left
      intro p _
      dsimp only [Function.comp]
      by_cases ha : p.1 = y <;> by_cases hb : p.1 = x
      · have hxy : y = x := by rw [← ha, ← hb]
        subst hxy
        simp [ha]
      · have hyx : ¬ y = x := fun hc => hb (by rw [ha, hc])
        simp [ha, hb, hyx]
      · have hxy : ¬ x = y := fun hc => ha (by rw [hb, hc])
        simp [ha, hb, hxy]
      · simp [ha, hb]
    rw [hcomm]
  | trans _ _ ih1 ih2 => exact (ih1 _).trans (ih2 _)

/-- Claim C7: for each edge (created with empty resolved ids), the
resolver sets the resolved from-id to the id mapped from `fromnodename`
in the graph's name-to-id map when the name is present and leaves it
empty with one counted error when absent, and does the same for
`tonodename`; each graph's edges are resolved in insertion order by
mapping the per-edge resolution over them; resolving a second time
leaves the resolved graph unchanged (idempotence); and resolving the
registry's graphs in any order gives the same registry
(order-independence). -/
theorem resolver_behavior :
    (∀ (m : List (Str × Str)) (e : Edge), e.from_node_id = [] → e.to_node_id = [] →
      (resolveEdge m e).1.from_node_id = (lookupAssoc m e.from_node_name).getD [] ∧
      (resolveEdge m e).1.to_node_id = (lookupAssoc m e.to_node_name).getD [] ∧
      (resolveEdge m e).1.from_node_name = e.from_node_name ∧
      (resolveEdge m e).1.to_node_name = e.to_node_name ∧
      (resolveEdge m e).2 =
        (if (lookupAssoc m e.from_node_name).isNone then 1 else 0) +
          (if (lookupAssoc m e.to_node_name).isNone then 1 else 0)) ∧
    (∀ g : Graph, (g.resolve_edge_node_ids).1.edges =
      g.edges.map (fun e => (resolveEdge g.node_name_to_id_map e).1)) ∧
    (∀ g : Graph,
      ((g.resolve_edge_node_ids).1.resolve_edge_node_ids).1 = (g.resolve_edge_node_ids).1) ∧
    (∀ (order order' : List Str) (reg : List (Str × Graph)), order.Perm order' →
      resolveInOrder order reg = resolveInOrder order' reg) := by
  refine ⟨?_, resolve_edges_eq, resolve_graph_idem, resolveInOrder_perm⟩
  intro m e hf ht
  refine ⟨?_, ?_, ?_, ?_, resolveEdge_snd m e hf ht⟩
  · rw [resolveEdge_fst]; simp [hf]
  · rw [resolveEdge_fst]; simp [ht]
  · rw [resolveEdge_fst]
  · rw [resolveEdge_fst]

/-- Witness for claim C7: an edge from `A` to `B` against a map binding
only `A` resolves the from-id, leaves the to-id empty with one error;
idempotence and order-independence at a concrete two-graph registry. -/
theorem resolver_behavior_witness :
    (resolveEdge [(S "A", S "n01")] (Edge.init (S "A") (S "B") [] (S "normal"))).1.from_node_id =
      S "n01" ∧
    (resolveEdge [(S "A", S "n01")] (Edge.init (S "A") (S "B") [] (S "normal"))).1.to_node_id =
      [] ∧
    (resolveEdge [(S "A", S "n01")] (Edge.init (S "A") (S "B") [] (S "normal"))).2 = 1 ∧
    ((demoGraph.resolve_edge_node_ids).1.resolve_edge_node_ids).1 =
      (demoGraph.resolve_edge_node_ids).1 ∧
    resolveInOrder [S "g", S "h"] [(S "g", demoGraph), (S "h", demoGraph)] =
      resolveInOrder [S "h", S "g"] [(S "g", demoGraph), (S "h", demoGraph)] := by
  have h := resolver_behavior
  refine ⟨?_, ?_, ?_, h.2.2.1 demoGraph,
    h.2.2.2 [S "g", S "h"] [S "h", S "g"] [(S "g", demoGraph), (S "h", demoGraph)] (by decide)⟩
  · rw [(h.1 [(S "A", S "n01")] (Edge.init (S "A") (S "B") [] (S "normal"))
      (by decide) (by decide)).1]
    decide
  · rw [(h.1 [(S "A", S "n01")] (Edge.init (S "A") (S "B") [] (S "normal"))
      (by decide) (by decide)).2.1]
    decide
  · rw [(h.1 [(S "A", S "n01")] (Edge.init (S "A") (S "B") [] (S "normal"))
      (by decide) (by decide)).2.2.2.2]
    decide

/-! ## Claim C10: data-model invariant of groups and node positions -/

theorem lookupAssoc_append_of_some {α : Type} {l : List (Str × α)} {k : Str} {w : α}
    (h : lookupAssoc l k = some w) (l2 : List (Str × α)) :
    lookupAssoc (l ++ l2) k = some w := by
  unfold lookupAssoc at h ⊢
  rw [List.find?_append]
  cases hf : l.find? (fun p => p.1 == k) with
  | none => rw [hf] at h; exact Option.noConfusion h
  | some q => rw [hf] at h; exact h

theorem lookupAssoc_append_of_none {α : Type} {l : List (Str × α)} {k : Str}
    (h : lookupAssoc l k = none) (l2 : List (Str × α)) :
    lookupAssoc (l ++ l2) k = lookupAssoc l2 k := by
  unfold lookupAssoc at h ⊢
  rw [List.find?_append]
  cases hf : l.find? (fun p => p.1 == k) with
  | none => rfl
  | some q => rw [hf] at h; exact Option.noConfusion h

theorem lookupAssoc_singleton {α : Type} (k k' : Str) (v : α) :
    lookupAssoc [(k, v)] k' = if k = k' then some v else none := by
  by_cases h : k = k' <;> simp [lookupAssoc, List.find?_cons, h]

theorem lookupAssoc_mapUpdate {α : Type} (l : List (Str × α)) (k : Str) (v : α) :
    lookupAssoc (l.map (fun p => if p.1 = k then (p.1, v) else p)) k =
      if l.any (fun p => p.1 == k) then some v else none := by
  induction l with
  | nil => rfl
  | cons p t ih =>
    by_cases hp : p.1 = k
    · simp [lookupAssoc, List.find?_cons, List.any_cons, hp]
    · have hb : (p.1 == k) = false := by simp [hp]
      simp only [List.map_cons, if_neg hp, List.any_cons, hb, Bool.false_or]
      unfold lookupAssoc at ih ⊢
      rw [List.find?_cons, hb]
      exact ih

theorem lookupAssoc_dictSet_self {α : Type} (l : List (Str × α)) (k : Str) (v : α) :
    lookupAssoc (dictSet l k v) k = some v := by
  unfold dictSet
  by_cases hany : l.any (fun p => p.1 == k) = true
  · rw [if_pos hany, lookupAssoc_mapUpdate, if_pos hany]
  · rw [if_neg hany]
    have hnone : lookupAssoc l k = none := by
      unfold lookupAssoc
      rw [List.find?_eq_none.mpr]
      intro a ha
      intro hc
      exact hany (List.any_eq_true.mpr ⟨a, ha, hc⟩)
    rw [lookupAssoc_append_of_none hnone, lookupAssoc_singleton, if_pos rfl]

theorem add_node_group_fields (g : Graph) (nodeid nodename nodetype group : Str) :
    (g.add_node nodeid nodename nodetype group).groups =
      (if group ≠ [] then (if group ∈ g.groups then g.groups else g.groups ++ [group])
       else g.groups) ∧
    (g.add_node nodeid nodename nodetype group).group_nodes =
      (if group ≠ [] then
        (match lookupAssoc g.group_nodes group with
         | some lst => dictSet g.group_nodes group (lst ++ [g.nodes.length])
         | none => g.group_nodes ++ [(group, [g.nodes.length])])
       else g.group_nodes) := by
  unfold Graph.add_node
  dsimp only
  by_cases hni : nodeid ≠ [] <;> by_cases hgr : group ≠ [] <;>
    by_cases hmem : group ∈ g.groups <;>
    cases hlk : lookupAssoc g.group_nodes group <;>
    simp [hni, hgr, hmem, hlk]

theorem graphWF_add_node {g : Graph} (h : GraphWF g) (nodeid nodename nodetype group : Str) :
    GraphWF (g.add_node nodeid nodename nodetype group) := by
  obtain ⟨h1, h2⟩ := h
  obtain ⟨hgrps, hgn⟩ := add_node_group_fields g nodeid nodename nodetype group
  have hlen : (g.add_node nodeid nodename nodetype group).nodes.length =
      g.nodes.length + 1 := by
    rw [add_node_nodes]; simp
  constructor
  · intro gname hgname
    rw [hgrps] at hgname
    rw [hgn]
    by_cases hgr : group ≠ []
    · rw [if_pos hgr] at hgname ⊢
      have hmemof : gname ≠ group → gname ∈ g.groups := by
        intro hk
        by_cases hmem : group ∈ g.groups
        · rw [if_pos hmem] at hgname; exact hgname
        · rw [if_neg hmem] at hgname
          rcases List.mem_append.mp hgname with hx | hx
          · exact hx
          · exact absurd (by simpa using hx) hk
      cases hlk : lookupAssoc g.group_nodes group with
      | some lst =>
        by_cases hk : gname = group
        · subst hk
          exact ⟨_, lookupAssoc_dictSet_self _ _ _⟩
        · rw [lookupAssoc_dictSet_ne _ _ _ _ hk]
          exact h1 gname (hmemof hk)
      | none =>
        by_cases hk : gname = group
        · subst hk
          rw [lookupAssoc_append_of_none hlk, lookupAssoc_singleton, if_pos rfl]
          exact ⟨_, rfl⟩
        · obtain ⟨ps, hps⟩ := h1 gname (hmemof hk)
          exact ⟨ps, lookupAssoc_append_of_some hps _⟩
    · rw [if_neg hgr] at hgname ⊢
      exact h1 gname hgname
  · intro gname ps hps
    rw [hgn] at hps
    rw [hlen]
    by_cases hgr : group ≠ []
    · rw [if_pos hgr] at hps
      cases hlk : lookupAssoc g.group_nodes group with
      | some lst =>
        rw [hlk] at hps
        by_cases hk : gname = group
        · subst hk
          rw [lookupAssoc_dictSet_self] at hps
          obtain rfl : lst ++ [g.nodes.length] = ps := Option.some.inj hps
          obtain ⟨hb, hpw⟩ := h2 gname lst hlk
          constructor
          · intro ix hix
            rcases List.mem_append.mp hix with hx | hx
            · have := hb ix hx
              omega
            · have : ix = g.nodes.length := by simpa using hx
              omega
          · rw [List.pairwise_append]
            refine ⟨hpw, by simp, fun a ha b hbm => ?_⟩
            have : b = g.nodes.length := by simpa using hbm
            rw [this]
            exact hb a ha
        · rw [lookupAssoc_dictSet_ne _ _ _ _ hk] at hps
          obtain ⟨hb, hpw⟩ := h2 gname ps hps
          refine ⟨fun ix hix => ?_, hpw⟩
          have := hb ix hix
          omega
      | none =>
        rw [hlk] at hps
        cases hlk2 : lookupAssoc g.group_nodes gname with
        | some w =>
          rw [lookupAssoc_append_of_some hlk2] at hps
          obtain rfl : w = ps := Option.some.inj hps
          obtain ⟨hb, hpw⟩ := h2 gname w hlk2
          refine ⟨fun ix hix => ?_, hpw⟩
          have := hb ix hix
          omega
        | none =>
          rw [lookupAssoc_append_of_none hlk2, lookupAssoc_singleton] at hps
          by_cases hk : group = gname
          · rw [if_pos hk] at hps
            obtain rfl : [g.nodes.length] = ps := Option.some.inj hps
            refine ⟨fun ix hix => ?_, by simp⟩
            have : ix = g.nodes.length := by simpa using hix
            omega
          · rw [if_neg hk] at hps
            exact Option.noConfusion hps
    · rw [if_neg hgr] at hps
      obtain ⟨hb, hpw⟩ := h2 gname ps hps
      refine ⟨fun ix hix => ?_, hpw⟩
      have := hb ix hix
      omega

theorem graphWF_add_edge {g : Graph} (h : GraphWF g) (f t l ty : Str) :
    GraphWF (g.add_edge f t l ty) := h

theorem graphWF_init (gt gid ti d fs : Str) : GraphWF (Graph.init gt gid ti d fs) := by
  constructor
  · intro gname hgname
    exact absurd hgname (by simp [Graph.init])
  · intro gname ps hps
    exact absurd hps (by simp [Graph.init, lookupAssoc])

/-- Claim C10: every graph reachable from a freshly defined graph by any
sequence of `add_node` / `add_edge` calls satisfies the data-model
invariant: every stored group name has an entry in the group-to-positions
mapping, every stored position is a valid index into the node list, and
each position list is strictly increasing — so the renderer's lookup of a
node by a stored group position is always in range. -/
theorem graph_model_invariant (ops : List GOp) (gt gid ti d fs : Str) :
    GraphWF (ops.foldl applyGOp (Graph.init gt gid ti d fs)) := by
  have hgen : ∀ (os : List GOp) (g : Graph), GraphWF g → GraphWF (os.foldl applyGOp g) := by
    intro os
    induction os with
    | nil => exact fun g h => h
    | cons op t ih =>
      intro g h
      refine ih _ ?_
      cases op with
      | addNode a b c dd => exact graphWF_add_node h a b c dd
      | addEdge a b c dd => exact graphWF_add_edge h a b c dd
  exact hgen ops _ (graphWF_init gt gid ti d fs)

/-! ## Claim C8: cluster rendering of a group -/

theorem filterMap_stmt_eq_map (g : Graph) (ps : List Nat)
    (h : ∀ ix ∈ ps, (g.nodes.getD ix defaultNode).node_id ≠ []) :
    (ps.filterMap (fun node_index =>
      let node := g.nodes.getD node_index defaultNode
      if node.node_id ≠ [] then some (nodeStmtLine indent2 node) else none)) =
    ps.map (fun ix => nodeStmtLine indent2 (g.nodes.getD ix defaultNode)) := by
  induction ps with
  | nil => rfl
  | cons ix t ih =>
    rw [List.filterMap_cons]
    dsimp only
    rw [if_pos (h ix (by simp)), List.map_cons,
      ih (fun z hz => h z (List.mem_cons_of_mem _ hz))]

theorem chain_fold_char (g : Graph) :
    ∀ (ps : List Nat) (lid : Str) (c : Nat) (out : List Str),
    (∀ ix ∈ ps, (g.nodes.getD ix defaultNode).node_id ≠ []) → c ≠ 0 →
    ps.foldl (chainStep g) (lid, c, out) =
      ((ps.map (fun ix => (g.nodes.getD ix defaultNode).node_id)).getLastD lid,
       c + ps.length,
       out ++ (List.zip (lid :: ps.map (fun ix => (g.nodes.getD ix defaultNode).node_id))
         (ps.map (fun ix => (g.nodes.getD ix defaultNode).node_id))).map
           (fun pr => chainEdgeLine pr.1 pr.2)) := by
  intro ps
  induction ps with
  | nil =>
    intro lid c out _ _
    simp
  | cons ix t ih =>
    intro lid c out h hc
    have hid := h ix (by simp)
    have hstep : chainStep g (lid, c, out) ix =
        ((g.nodes.getD ix defaultNode).node_id, c + 1,
         out ++ [chainEdgeLine lid (g.nodes.getD ix defaultNode).node_id]) := by
      unfold chainStep
      dsimp only
      rw [if_pos hid, if_neg (by omega)]
    show t.foldl (chainStep g) (chainStep g (lid, c, out) ix) = _
    rw [hstep, ih _ _ _ (fun z hz => h z (List.mem_cons_of_mem _ hz)) (by omega)]
    simp only [List.map_cons, List.getLastD_cons, List.zip_cons_cons, List.map,
      List.append_assoc, List.singleton_append, List.length_cons, Prod.mk.injEq]
    refine ⟨by first | rfl | trivial, by omega, by rfl⟩

theorem chainEdges_char (g : Graph) (ps : List Nat)
    (h : ∀ ix ∈ ps, (g.nodes.getD ix defaultNode).node_id ≠ []) (hne : ps ≠ []) :
    chainEdges g ps =
      (List.zip (ps.map (fun ix => (g.nodes.getD ix defaultNode).node_id))
        (ps.map (fun ix => (g.nodes.getD ix defaultNode).node_id)).tail).map
        (fun pr => chainEdgeLine pr.1 pr.2) := by
  cases ps with
  | nil => exact absurd rfl hne
  | cons ix t =>
    unfold chainEdges
    have hid := h ix (by simp)
    have hstep : chainStep g ([], 0, []) ix =
        ((g.nodes.getD ix defaultNode).node_id, 1, []) := by
      unfold chainStep
      dsimp only
      rw [if_pos hid, if_pos rfl]
    show (List.foldl (chainStep g) (chainStep g (([], 0, []) : Str × Nat × List Str) ix) t).2.2 = _
    rw [hstep, chain_fold_char g t _ 1 [] (fun z hz => h z (List.mem_cons_of_mem _ hz))
      (by omega)]
    simp

theorem flatten_range_chunk {γ : Type} (f : Nat → List γ) :
    ∀ (n idx : Nat), idx < n →
    ∃ pre post, ((List.range n).map f).flatten = pre ++ f idx ++ post := by
  intro n
  induction n with
  | zero => intro idx h; exact absurd h (by omega)
  | succ n ih =>
    intro idx h
    rw [List.range_succ, List.map_append, List.flatten_append]
    by_cases hlt : idx < n
    · obtain ⟨pre, post, hp⟩ := ih idx hlt
      refine ⟨pre, post ++ [f n].flatten, ?_⟩
      rw [hp]
      simp [List.append_assoc]
    · have hidx : idx = n := by omega
      subst hidx
      exact ⟨((List.range idx).map f).flatten, [], by simp⟩

/-- Claim C8: for a group holding k stored node positions (k at least 1,
every referenced node with a non-empty id), the cluster emitted for that
group consists of the subgraph header, the k node statements in exactly
stored-position (insertion) order, the invisible-edge style line, and
exactly k - 1 invisible edges chaining consecutive nodes; the full
renderer output contains that cluster as one contiguous block. -/
theorem cluster_render (g : Graph) (idx : Nat) (gname : Str) (ps : List Nat)
    (hidx : idx < g.groups.length)
    (hgn : g.groups.getD idx [] = gname)
    (hps : lookupAssoc g.group_nodes gname = some ps)
    (hne : ps ≠ [])
    (hids : ∀ ix ∈ ps, (g.nodes.getD ix defaultNode).node_id ≠ []) :
    clusterLines g idx =
      [S "\n",
       indent ++ S "subgraph cluster_" ++ pad2 (idx + 1) ++ S " \x7b\n",
       indent2 ++ S "// This is group \"" ++ gname ++ S "\"\n",
       indent2 ++ S "color = lightgrey;\n",
       indent2 ++ S "label = \"" ++ gname ++ S "\";\n",
       indent2 ++ S "color = black;\n",
       indent2 ++ S "fontcolor = black;\n",
       indent2 ++ S "node [" ++ DEFAULT_NODE_SETTINGS ++ S "];\n"] ++
      ps.map (fun ix => nodeStmtLine indent2 (g.nodes.getD ix defaultNode)) ++
      [indent2 ++ S "edge [style=\"invis\"];\n"] ++
      (List.zip (ps.map (fun ix => (g.nodes.getD ix defaultNode).node_id))
        (ps.map (fun ix => (g.nodes.getD ix defaultNode).node_id)).tail).map
        (fun pr => chainEdgeLine pr.1 pr.2) ++
      [indent ++ S "\x7d\n"] ∧
    (chainEdges g ps).length = ps.length - 1 ∧
    (∀ output_path : Str, ∃ pre post,
      g.generate_graph_output_graphviz output_path = pre ++ clusterLines g idx ++ post) := by
  have hclu : clusterLines g idx =
      [S "\n",
       indent ++ S "subgraph cluster_" ++ pad2 (idx + 1) ++ S " \x7b\n",
       indent2 ++ S "// This is group \"" ++ gname ++ S "\"\n",
       indent2 ++ S "color = lightgrey;\n",
       indent2 ++ S "label = \"" ++ gname ++ S "\";\n",
       indent2 ++ S "color = black;\n",
       indent2 ++ S "fontcolor = black;\n",
       indent2 ++ S "node [" ++ DEFAULT_NODE_SETTINGS ++ S "];\n"] ++
      ps.map (fun ix => nodeStmtLine indent2 (g.nodes.getD ix defaultNode)) ++
      [indent2 ++ S "edge [style=\"invis\"];\n"] ++
      (List.zip (ps.map (fun ix => (g.nodes.getD ix defaultNode).node_id))
        (ps.map (fun ix => (g.nodes.getD ix defaultNode).node_id)).tail).map
        (fun pr => chainEdgeLine pr.1 pr.2) ++
      [indent ++ S "\x7d\n"] := by
    unfold clusterLines
    dsimp only
    rw [hgn, hps]
    simp only [Option.getD_some]
    rw [filterMap_stmt_eq_map g ps hids, chainEdges_char g ps hids hne]
  refine ⟨hclu, ?_, ?_⟩
  · rw [chainEdges_char g ps hids hne]
    rw [List.length_map, List.length_zip, List.length_map, List.length_tail, List.length_map]
    omega
  · intro output_path
    obtain ⟨pre, post, hp⟩ := flatten_range_chunk (clusterLines g) g.groups.length idx hidx
    unfold Graph.generate_graph_output_graphviz
    dsimp only
    rw [if_pos (by omega), hp]
    refine ⟨[S "// Graph file \"" ++ (output_path ++ g.filename_suffix ++
        OUTPUT_FILE_SUFFIX_GRAPHVIZ) ++ S "\"\n", S "digraph \x7b\n"] ++ pre,
      post ++ ([S "\n", indent ++ S "edge [" ++ DEFAULT_EDGE_SETTINGS ++ S "];\n"] ++
        g.edges.filterMap (fun e =>
          if e.from_node_id ≠ [] ∧ e.to_node_id ≠ [] then some (edgeStmtLine e) else none) ++
        [S "\n", indent ++ S "// Graph title\n", indent ++ S "labelloc = \"t\";\n",
         indent ++ S "label = \"" ++ g.title ++ S "\";\n", S "\x7d\n"]), ?_⟩
    simp [List.append_assoc]

/-- Witness for claim C8 at a concrete two-node graph with one group. -/
theorem cluster_render_witness :
    (chainEdges
      (((Graph.init (S "code") (S "g") (S "T") (S "D") (S "_s")).add_node
          (S "n01") (S "A") (S "state") (S "G")).add_node
          (S "n02") (S "B") (S "state") (S "G")) [0, 1]).length = 1 ∧
    clusterLines
      (((Graph.init (S "code") (S "g") (S "T") (S "D") (S "_s")).add_node
          (S "n01") (S "A") (S "state") (S "G")).add_node
          (S "n02") (S "B") (S "state") (S "G")) 0 =
      [S "\n",
       indent ++ S "subgraph cluster_" ++ pad2 1 ++ S " \x7b\n",
       indent2 ++ S "// This is group \"" ++ S "G" ++ S "\"\n",
       indent2 ++ S "color = lightgrey;\n",
       indent2 ++ S "label = \"" ++ S "G" ++ S "\";\n",
       indent2 ++ S "color = black;\n",
       indent2 ++ S "fontcolor = black;\n",
       indent2 ++ S "node [" ++ DEFAULT_NODE_SETTINGS ++ S "];\n"] ++
      [0, 1].map (fun ix =>
        nodeStmtLine indent2
          ((((Graph.init (S "code") (S "g") (S "T") (S "D") (S "_s")).add_node
              (S "n01") (S "A") (S "state") (S "G")).add_node
              (S "n02") (S "B") (S "state") (S "G")).nodes.getD ix defaultNode)) ++
      [indent2 ++ S "edge [style=\"invis\"];\n"] ++
      (List.zip ([0, 1].map (fun ix =>
          ((((Graph.init (S "code") (S "g") (S "T") (S "D") (S "_s")).add_node
              (S "n01") (S "A") (S "state") (S "G")).add_node
              (S "n02") (S "B") (S "state") (S "G")).nodes.getD ix defaultNode).node_id))
        (([0, 1].map (fun ix =>
          ((((Graph.init (S "code") (S "g") (S "T") (S "D") (S "_s")).add_node
              (S "n01") (S "A") (S "state") (S "G")).add_node
              (S "n02") (S "B") (S "state") (S "G")).nodes.getD ix defaultNode).node_id)).tail)).map
        (fun pr => chainEdgeLine pr.1 pr.2) ++
      [indent ++ S "\x7d\n"] := by
  have h := cluster_render
    (((Graph.init (S "code") (S "g") (S "T") (S "D") (S "_s")).add_node
        (S "n01") (S "A") (S "state") (S "G")).add_node
        (S "n02") (S "B") (S "state") (S "G")) 0 (S "G") [0, 1]
    (by decide) (by decide) (by decide) (by decide) (by decide)
  exact ⟨by rw [h.2.1]; decide, h.1⟩

end GraphMaker
